import Mathlib

set_option linter.unusedVariables false

namespace DPCP

mutual
/-- JSON-like pipeline data values exchanged between nodes
(`PipelineData` is `any` in the source; the shapes consulted by the code are
objects with `additionalData` arrays, `origin`, and `data` fields). -/
inductive JVal where
  | null : JVal
  | bool : Bool → JVal
  | num : Int → JVal
  | str : String → JVal
  | arr : JArr → JVal
  | obj : JObj → JVal
  deriving DecidableEq, Repr

/-- A JS array of values. -/
inductive JArr where
  | nil : JArr
  | cons : JVal → JArr → JArr
  deriving DecidableEq, Repr

/-- A JS object: ordered key/value fields. -/
inductive JObj where
  | nil : JObj
  | cons : String → JVal → JObj → JObj
  deriving DecidableEq, Repr
end

/-- Field lookup on an object record. -/
def JObj.get : JObj → String → Option JVal
  | .nil, _ => none
  | .cons k v rest, key => if k = key then some v else rest.get key

/-- Field lookup on an object value (JS property access: `undefined` when
the value is not an object or the key is absent, modelled as `none`). -/
def jGet : JVal → String → Option JVal
  | .obj fields, k => fields.get k
  | _, _ => none

/-- Length of a JS array. -/
def JArr.length : JArr → Nat
  | .nil => 0
  | .cons _ rest => rest.length + 1

/-- Append one element at the end of a JS array (`push`). -/
def JArr.push : JArr → JVal → JArr
  | .nil, v => .cons v .nil
  | .cons x rest, v => .cons x (rest.push v)

example : jGet (.obj (.cons "x" (.num 1) .nil)) "x" = some (.num 1) := by decide

/-- Assign a field on an object record, updating in place when the key is
present and appending otherwise (JS property assignment order). -/
def JObj.set : JObj → String → JVal → JObj
  | .nil, k, v => .cons k v .nil
  | .cons k₁ v₁ rest, k, v =>
    if k₁ = k then .cons k v rest else .cons k₁ v₁ (rest.set k v)

/-- Property assignment on a value; assignments on primitives are dropped
(as in non-strict JS). -/
def jSet : JVal → String → JVal → JVal
  | .obj fields, k, v => .obj (fields.set k v)
  | other, _, _ => other

/-- `meta` attached to a service entry
(`PipelineMeta` from `types/types`: `resolver?` plus an opaque
`configuration` blob, modelled as an optional string payload). -/
structure PipelineMeta where
  resolver : Option String := none
  configuration : Option String := none
  deriving DecidableEq, Repr

/-- `ServiceConfig`: `targetId` with optional `meta`. -/
structure ServiceConfig where
  targetId : String
  meta : Option PipelineMeta := none
  deriving DecidableEq, Repr

/-- An entry of `NodeConfig.services`: `string | ServiceConfig`. -/
inductive Service where
  | str : String → Service
  | obj : ServiceConfig → Service
  deriving DecidableEq, Repr

/-- `typeof service === "string" ? service : service.targetId`. -/
def serviceTargetId : Service → String
  | .str s => s
  | .obj c => c.targetId

/-- `typeof service === "string" ? service : service.meta?.resolver`. -/
def serviceResolver : Service → Option String
  | .str s => some s
  | .obj c => c.meta.bind (fun m => m.resolver)

/-- `typeof service !== "string" ? service.meta : undefined`. -/
def serviceMeta : Service → Option PipelineMeta
  | .str _ => none
  | .obj c => c.meta

/-- JS truthiness filter for a `string | ServiceConfig | undefined` value:
the empty string is falsy, objects are truthy. -/
def truthyService : Option Service → Option Service
  | some (.str "") => none
  | o => o

/-- JS truthiness filter for a `string | undefined` value. -/
def truthyStr : Option String → Option String
  | some "" => none
  | o => o

/-- `NodeConfig.rootConfig`: the parent configuration carried on a child
chain; only `monitoringHost` and `childMode` are consulted by the code. -/
structure RootConfig where
  monitoringHost : Option String := none
  childMode : Option String := none
  deriving DecidableEq, Repr

/-- An inner entry of `NodeConfig.pre` (`NodeConfig[][]`); the node configs
of a pre sub-chain are flat (their own `pre`/`rootConfig` are never read by
the modelled operations) with the extra `targetId` field that
`processPreChain` adds by spread. -/
structure PreNodeConfig where
  services : List Service := []
  location : Option String := none
  chainId : Option String := none
  monitoringHost : Option String := none
  nextTargetId : Option String := none
  nextNodeResolver : Option String := none
  nextMeta : Option PipelineMeta := none
  targetId : Option String := none
  deriving DecidableEq, Repr

/-- Control signals accepted by the supervisor / node status manager. -/
inductive NodeSignal where
  | NODE_SETUP | NODE_CREATE | NODE_DELETE | NODE_RUN | NODE_SEND_DATA
  | NODE_PRE | NODE_SUSPEND | NODE_RESUME
  | CHAIN_PREPARE | CHAIN_START | CHAIN_START_PENDING_OCCURRENCE | CHAIN_DEPLOY
  deriving DecidableEq, Repr

/-- `NodeConfig` (src/lib/src/types): the per-node chain configuration.
`location` is the raw string tag (`"local" | "remote"`); `chainType` is the
int bitmask; `chainConfig` (child chains) is not consulted by any modelled
operation and is elided. -/
structure NodeConfig where
  services : List Service := []
  location : String := "local"
  chainId : Option String := none
  index : Option Nat := none
  count : Option Nat := none
  monitoringHost : Option String := none
  chainType : Option Nat := none
  childMode : Option String := none
  pre : List (List PreNodeConfig) := []
  rootConfig : Option RootConfig := none
  nextTargetId : Option String := none
  nextNodeResolver : Option String := none
  nextMeta : Option PipelineMeta := none
  signalQueue : List NodeSignal := []
  deriving DecidableEq, Repr

/-- `preData?.data ?? preData`: take the `data` field of the pre-stage
result when it is present and non-null, else the result itself. -/
def preCoalesce (preData : JVal) : JVal :=
  match jGet preData "data" with
  | some v => if v = .null then preData else v
  | none => preData

/-- The fresh-merge branch of the pre-stage merge in `Node.execute`
(src/lib/src/core/Node.ts 313-318): the original data moves to `origin` and
a fresh `additionalData` holds `preData?.data ?? preData`
(insertion order: `additionalData` assigned before `origin`). -/
def mergeFresh (data preData : JVal) : JVal :=
  .obj (.cons "additionalData" (.arr (.cons (preCoalesce preData) .nil))
    (.cons "origin" data .nil))

/-- JS truthiness of a value: `null`, `false`, `0` and the empty string are
falsy; arrays and objects are always truthy. -/
def jTruthy : JVal → Bool
  | .null => false
  | .bool b => b
  | .num n => decide (n ≠ 0)
  | .str s => decide (s ≠ "")
  | .arr _ => true
  | .obj _ => true

/-- JS property access `v.length`: arrays and strings have their numeric
length; on an object it reads the `length` field; on any other primitive it
is `undefined` (`none`). -/
def jLengthVal : JVal → Option JVal
  | .arr a => some (.num a.length)
  | .str s => some (.num s.length)
  | .obj o => o.get "length"
  | _ => none

/-- Decimal parse of a character list (`ToNumber` on the digit strings the
integer-valued data model can represent; the empty string parses to `0` as
in JS, a non-digit character yields `NaN`, i.e. `none`). -/
def decStrVal : List Char → Nat → Option Nat
  | [], acc => some acc
  | c :: rest, acc =>
    if c.isDigit then decStrVal rest (acc * 10 + (c.toNat - 48)) else none

/-- JS comparison `x > 0` applied to a (possibly `undefined`) length value:
numbers compare directly, `true` coerces to `1`, a string coerces by
`ToNumber` (modelled by its decimal parse — the only numbers of the model
are integers), and `undefined`, `null` and the remaining `NaN`-producing
shapes compare false. -/
def jGtZero : Option JVal → Bool
  | some (.num n) => decide (0 < n)
  | some (.bool b) => b
  | some (.str s) =>
    match decStrVal s.data 0 with
    | some n => decide (0 < n)
    | none => false
  | _ => false

/-- Result of the pre-stage merge: the merged data value, or the
`TypeError` thrown by `additionalData.push` when `additionalData` is not an
array (which `Node.execute`'s catch turns into `NODE_FAILED`). -/
inductive MergeResult where
  | ok : JVal → MergeResult
  | typeError : MergeResult
  deriving DecidableEq, Repr

/-- The pre-stage merge of `Node.execute` (src/lib/src/core/Node.ts
307-319). The guard is `data.additionalData && data.additionalData.length
> 0`: on an array value it is exactly `0 < a.length` (arrays are truthy and
their `length` is the element count) and `push` appends `preData`; on any
other truthy value whose `length` compares above zero (e.g. a non-empty
string) the guard passes but `push` is not a function, so a `TypeError` is
thrown; when the guard fails, the fresh-merge branch runs. -/
def mergePre (data preData : JVal) : MergeResult :=
  match jGet data "additionalData" with
  | some (.arr a) =>
    if 0 < a.length then .ok (jSet data "additionalData" (.arr (a.push preData)))
    else .ok (mergeFresh data preData)
  | some v =>
    if jTruthy v && jGtZero (jLengthVal v) then .typeError
    else .ok (mergeFresh data preData)
  | none => .ok (mergeFresh data preData)

/-- Total projection of the merge used by the execute model: the runs it
models keep `additionalData` an array (the only shape the protocol itself
writes into the data value), so the `typeError` path does not arise there
and is projected onto the fresh merge. -/
def mergePreT (data preData : JVal) : JVal :=
  match mergePre data preData with
  | .ok d => d
  | .typeError => mergeFresh data preData

/-- One annotated entry of the pre sub-chain broadcast, translated from the
`preConfig.map` body in `Node.processPreChain` (src/lib/src/core/Node.ts
243-276). `raw` is `preConfig[index + 1]?.services[0]`; when falsy, the
fallback is the node's own first service; the ternaries then re-test
truthiness of the fallback value. -/
def annotatePreEntry (nodeCfg : NodeConfig) (raw : Option Service)
    (config : PreNodeConfig) : PreNodeConfig :=
  let nextConfig : Option Service :=
    match truthyService raw with
    | some s => some s
    | none => nodeCfg.services.head?
  { config with
    chainId := some ((nodeCfg.chainId).getD ""),
    nextTargetId := (truthyService nextConfig).map serviceTargetId,
    nextNodeResolver := (truthyService nextConfig).bind serviceResolver,
    nextMeta :=
      match nextConfig with
      | some (.obj sc) => sc.meta
      | _ => none,
    targetId := (truthyService config.services.head?).map serviceTargetId }

/-- The `preConfig.map((config, index) => ...)` of `processPreChain`, with
the `index + 1` lookahead realized by walking the tail. -/
def annotatePre (nodeCfg : NodeConfig) : List PreNodeConfig → List PreNodeConfig
  | [] => []
  | c :: rest =>
    annotatePreEntry nodeCfg ((rest.head?).bind (fun n => n.services.head?)) c
      :: annotatePre nodeCfg rest

/-- The `for (const preConfig of this.config.pre)` loop of
`processPreChain`: the first inner list with `length > 0` is selected (the
loop returns inside its body), empty inner lists are skipped. -/
def firstNonEmptyPre : List (List PreNodeConfig) → Option (List PreNodeConfig)
  | [] => none
  | p :: rest => if 0 < p.length then some p else firstNonEmptyPre rest

/-- `Node.processPreChain` (src/lib/src/core/Node.ts 235-283): when
`config.pre` is a non-empty array, the first non-empty inner list is
annotated and handed to `broadcastNodePreSignal`; the function returns
`undefined` (here `none`, no broadcast) otherwise. -/
def processPreChain (cfg : NodeConfig) : Option (List PreNodeConfig) :=
  if 0 < cfg.pre.length then (firstNonEmptyPre cfg.pre).map (annotatePre cfg)
  else none

/-- Node statuses (`ChainStatus` from `types/types`). -/
inductive ChainStatus where
  | NODE_PENDING | NODE_IN_PROGRESS | NODE_COMPLETED | NODE_FAILED
  | NODE_SUSPENDED | NODE_SETUP_COMPLETED | NODE_END_OF_PIPELINE
  | NODE_PENDING_DELETION | CHAIN_DEPLOYED | CHILD_CHAIN_STARTED
  | CHILD_CHAIN_COMPLETED | CHAIN_NOTIFIED
  deriving DecidableEq, Repr

/-- `NodeType`: routing kind of the next hop. -/
inductive NodeType where
  | LOCAL
  | REMOTE
  deriving DecidableEq, Repr

/-- The `id` string of `nextNodeInfo`: a local node UUID (UUIDs are
modelled as the naturals issued by the supervisor counter) or a remote
target service identifier. -/
inductive NodeRef where
  | uuid : Nat → NodeRef
  | target : String → NodeRef
  deriving DecidableEq, Repr

/-- `Node.nextNodeInfo`: routing info for the next hop. -/
structure NextNodeInfo where
  id : NodeRef
  type : NodeType
  meta : Option PipelineMeta := none
  deriving DecidableEq, Repr

/-- Modelled from the spec: the suspended state preserved by the
`NodeStatusManager` (its source is not under `src/`); §4.4 states it keeps
the stashed data plus a resume payload; `Node.execute` reads the `data` and
`previousNodeParams` fields of it on the resume path. -/
structure SuspendedState where
  data : JVal
  previousNodeParams : JVal
  cursor : Nat := 0
  deriving DecidableEq, Repr

/-- A pipeline processor (`PipelineProcessor`): `targetId` plus `meta`,
built from a service entry
(`typeof service === "string" ? \x7btargetId: service\x7d : service`). -/
def toProcessor : Service → ServiceConfig
  | .str s => { targetId := s }
  | .obj c => c

/-- The per-node runtime state (`Node` fields consulted by the modelled
operations; the reporting agent is outbound-only and elided; `suspended`
and `signalQueue` stand for the `NodeStatusManager` owned by the node,
modelled from the spec since its source is not under `src/`). -/
structure SNode where
  id : Nat
  config : Option NodeConfig := none
  pipelines : List (List ServiceConfig) := []
  nextNodeInfo : Option NextNodeInfo := none
  status : ChainStatus := .NODE_PENDING
  progress : ℚ := 0
  output : List JVal := []
  suspended : Option SuspendedState := none
  signalQueue : List NodeSignal := []

/-- `ChainRelation`: per-chain record held by the supervisor. -/
structure ChainRelation where
  config : List NodeConfig
  rootNodeId : Option Nat := none
  dataRef : Option JVal := none

/-- The supervisor state: `nodes`, `chains` and `childChains` maps plus the
identifier supplies (`fresh` issues node UUIDs, `randQ` the random chain-id
suffixes, `time` the `Date.now()` reading). -/
structure SupState where
  uid : String := "@supervisor:default"
  nodes : List (Nat × SNode) := []
  chains : List (String × ChainRelation) := []
  childChains : List (String × List String) := []
  fresh : Nat := 0
  time : Nat := 0
  randQ : List String := []

/-- Association-list lookup (JS `Map.get`). -/
def alGet [DecidableEq κ] : List (κ × α) → κ → Option α
  | [], _ => none
  | (k₁, v) :: rest, k => if k₁ = k then some v else alGet rest k

/-- Association-list insert-or-replace (JS `Map.set`: replaces in place,
appends new keys at the end). -/
def alSet [DecidableEq κ] : List (κ × α) → κ → α → List (κ × α)
  | [], k, v => [(k, v)]
  | (k₁, v₁) :: rest, k, v =>
    if k₁ = k then (k, v) :: rest else (k₁, v₁) :: alSet rest k v

/-- Association-list removal of the (unique) binding (JS `Map.delete`). -/
def alDel [DecidableEq κ] : List (κ × α) → κ → List (κ × α)
  | [], _ => []
  | (k₁, v₁) :: rest, k => if k₁ = k then rest else (k₁, v₁) :: alDel rest k

/-- Mutate the node stored under `k` when it exists (the
`const n = this.nodes.get(k); if (n) n.method(...)` pattern). -/
def updateNode (st : SupState) (k : Nat) (f : SNode → SNode) : SupState :=
  match alGet st.nodes k with
  | some n => { st with nodes := alSet st.nodes k (f n) }
  | none => st

/-- Mutate the chain relation stored under `cid` when it exists. -/
def updateChainRel (st : SupState) (cid : String) (f : ChainRelation → ChainRelation) : SupState :=
  match alGet st.chains cid with
  | some r => { st with chains := alSet st.chains cid (f r) }
  | none => st

/-- `NodeSupervisor.createNode` (src/lib/src/core/NodeSupervisor.ts
308-317): a `Node` is constructed (fresh UUID, pending status, progress 0),
`setConfig` stores the config and enqueues `config.signalQueue`, and the
node is inserted under its own id. -/
def createNodeS (st : SupState) (config : NodeConfig) : SupState × Nat :=
  let nodeId := st.fresh
  let node : SNode :=
    { id := nodeId, config := some config, signalQueue := config.signalQueue }
  ({ st with nodes := alSet st.nodes nodeId node, fresh := st.fresh + 1 }, nodeId)

/-- `NodeSupervisor.updateChain` (501-524): throws on an empty config or a
falsy `config[0].chainId`; otherwise concatenates into the existing
relation or creates one. -/
def updateChainS (st : SupState) (config : List NodeConfig) : SupState × Except String String :=
  match config with
  | [] => (st, .error "Invalid chain configuration")
  | c :: _ =>
    match truthyStr c.chainId with
    | none => (st, .error "Invalid chain configuration")
    | some cid =>
      match alGet st.chains cid with
      | some rel =>
        ({ st with chains := alSet st.chains cid { rel with config := rel.config ++ config } }, .ok cid)
      | none =>
        ({ st with chains := alSet st.chains cid { config := config } }, .ok cid)

/-- `NodeSupervisor.setupNode` (325-366): `updateChain([config])`, create
the node, `setRemoteMonitoringHost` (throws when `config.monitoringHost` is
falsy), build one processor pipeline from `config.services`, and set a
REMOTE `nextNodeInfo` when `config.nextTargetId !== undefined`. -/
def setupNodeS (st : SupState) (config : NodeConfig) (initiator : Bool) :
    SupState × Except String Nat :=
  match updateChainS st [config] with
  | (st₁, .error e) => (st₁, .error e)
  | (st₁, .ok _) =>
    let p := createNodeS st₁ config
    match truthyStr config.monitoringHost with
    | none => (p.1, .error "No Monitoring Host set for Chain during distribution")
    | some _ =>
      let processors := config.services.map toProcessor
      let st₃ := updateNode p.1 p.2 (fun n => { n with pipelines := n.pipelines ++ [processors] })
      let st₄ :=
        match config.nextTargetId with
        | some tid => updateNode st₃ p.2
            (fun n => { n with nextNodeInfo := some ⟨.target tid, .REMOTE, config.nextMeta⟩ })
        | none => st₃
      (st₄, .ok p.2)

/-- `NodeSupervisor.deleteNode` (443-450): removes the binding when the id
is present, otherwise only warns. -/
def deleteNodeS (st : SupState) (nodeId : Nat) : SupState :=
  if (alGet st.nodes nodeId).isSome then { st with nodes := alDel st.nodes nodeId } else st

/-- The chain identifier built by `createChain`:
`uid-timestamp-randomUUID().slice(0, 8)`. -/
def chainIdOf (uid : String) (timestamp : Nat) (ruuid : String) : String :=
  uid ++ "-" ++ toString timestamp ++ "-" ++ (ruuid.take 8)

/-- The `config.forEach((value, index) => ...)` of `createChain` (477-483):
every entry receives its position as `index`, the shared `count` and the
shared `monitoringHost`. -/
def assignIndices (count : Nat) (mh : Option String) : Nat → List NodeConfig → List NodeConfig
  | _, [] => []
  | i, c :: rest =>
    { c with index := some i, count := some count, monitoringHost := mh }
      :: assignIndices count mh (i + 1) rest

/-- `NodeSupervisor.createChain` (457-494) as a pure function of the
identifier supplies: the chain id is built, and the config entries are
mutated with `index`, `count` and the monitoring host of the first entry
(from its `rootConfig` when present). On an empty array
`config[0].rootConfig` raises a `TypeError` (`config[0]` is `undefined`),
after the relation was already stored, so the chain id is returned in both
cases. -/
def createChainPure (uid : String) (timestamp : Nat) (ruuid : String)
    (config : List NodeConfig) : String × Except String (List NodeConfig) :=
  let chainId := chainIdOf uid timestamp ruuid
  match config with
  | [] => (chainId, .error "TypeError: cannot read rootConfig of undefined")
  | c₀ :: _ =>
    let monitoringHost :=
      match c₀.rootConfig with
      | some rc => rc.monitoringHost
      | none => c₀.monitoringHost
    (chainId, .ok (assignIndices config.length monitoringHost 0 config))

/-- `createChain` acting on the supervisor state: the relation is stored
before the mutation pass (and therefore also before the `TypeError` on an
empty config); the relation aliases the mutated config array. -/
def createChainS (st : SupState) (config : List NodeConfig) : SupState × Except String String :=
  let ruuid := (st.randQ.headD "")
  let st₀ := { st with randQ := st.randQ.tail }
  let pr := createChainPure st.uid st.time ruuid config
  let st₁ := { st₀ with chains := alSet st₀.chains pr.1 { config := config } }
  match pr.2 with
  | .error e => (st₁, .error e)
  | .ok updated =>
    ({ st₁ with chains := alSet st₁.chains pr.1 { config := updated } }, .ok pr.1)

/-- The `remoteConfigs.map((config, index) => ...)` lookahead of
`prepareChainDistribution` (614-637): each remote config is annotated from
`remoteConfigs[index + 1]?.services[0]` (`undefined` past the end), with
the JS truthiness test on that service value. -/
def annotateRemotes : List NodeConfig → List NodeConfig
  | [] => []
  | c :: rest =>
    let raw : Option Service := (rest.head?).bind (fun n => n.services.head?)
    { c with
      nextTargetId := (truthyService raw).map serviceTargetId,
      nextNodeResolver := (truthyService raw).bind serviceResolver,
      nextMeta :=
        match raw with
        | some (.obj sc) => sc.meta
        | _ => none } :: annotateRemotes rest

/-- The `for (let i = 1; ...)` linking loop of `prepareChainDistribution`
(573-587): each subsequent local config is set up and the previous node
points at it as LOCAL; returns the created node ids in order. -/
def setupLocalsAux (chainId : String) : SupState → Nat → List NodeConfig →
    SupState × Except String (List Nat)
  | st, _, [] => (st, .ok [])
  | st, prev, c :: rest =>
    match setupNodeS st { c with chainId := some chainId } true with
    | (st₁, .error e) => (st₁, .error e)
    | (st₁, .ok cur) =>
      let st₂ := updateNode st₁ prev
        (fun n => { n with nextNodeInfo := some ⟨.uuid cur, .LOCAL, none⟩ })
      match setupLocalsAux chainId st₂ cur rest with
      | (st₃, .error e) => (st₃, .error e)
      | (st₃, .ok ids) => (st₃, .ok (cur :: ids))

/-- The broadcast decision: remote configs, when present, are annotated and
handed to `broadcastSetupCallback` (the message contents are returned as
observables; transport errors are swallowed by the inner catch). -/
def broadcastOf (remoteConfigs : List NodeConfig) : Option (List NodeConfig) :=
  if remoteConfigs.isEmpty then none else some (annotateRemotes remoteConfigs)

/-- The relink of the last local node: when a first remote config with a
first service exists, the last local node points at that service as REMOTE
(prepareChainDistribution 593-606). -/
def lastLocalRemoteLink (st₃ : SupState) (lastId : Nat)
    (remoteConfigs : List NodeConfig) : SupState :=
  match remoteConfigs with
  | [] => st₃
  | rc₀ :: _ =>
    match rc₀.services with
    | [] => st₃
    | s₀ :: _ =>
      updateNode st₃ lastId (fun n => { n with nextNodeInfo := some (NextNodeInfo.mk (NodeRef.target (serviceTargetId s₀)) NodeType.REMOTE (serviceMeta s₀)) })

/-- `NodeSupervisor.prepareChainDistribution` (545-651): partition the
chain config by `location`; set up and link the local segment (root first,
then the loop, then the last local node is pointed at the first service of
the first remote config when both exist); annotate the remote configs by
lookahead and hand them to `broadcastSetupCallback` (broadcast errors are
swallowed by the inner catch; local setup errors are rethrown). Returns the
created local node ids and the broadcast message contents as observables. -/
def prepareChainDistributionS (st : SupState) (chainId : String) :
    SupState × Except String (List Nat × Option (List NodeConfig)) :=
  match alGet st.chains chainId with
  | none => (st, .error "Chain not found")
  | some chain =>
    match chain.config.filter (fun c => c.location = "local") with
    | [] => (st, .ok ([], broadcastOf (chain.config.filter (fun c => c.location = "remote"))))
    | c₀ :: restLocals =>
      match setupNodeS st { c₀ with chainId := some chainId } true with
      | (st₁, .error e) => (st₁, .error e)
      | (st₁, .ok rootId) =>
        match setupLocalsAux chainId (updateChainRel st₁ chainId
            (fun r => { r with rootNodeId := some rootId })) rootId restLocals with
        | (st₃, .error e) => (st₃, .error e)
        | (st₃, .ok ids) =>
          (lastLocalRemoteLink st₃ ((rootId :: ids).getLast (by simp))
              (chain.config.filter (fun c => c.location = "remote")),
            .ok (rootId :: ids,
              broadcastOf (chain.config.filter (fun c => c.location = "remote"))))

/-- `NodeSupervisor.deployChain` (271-301): requires a configuration
(`undefined` throws), `createChain`, `prepareChainDistribution`, stash
`dataRef`, register as child of `parentChainId` when given; errors are
logged and rethrown. -/
def deployChainS (st : SupState) (config : Option (List NodeConfig)) (data : Option JVal)
    (parentChainId : Option String) : SupState × Except String String :=
  match config with
  | none => (st, .error "Chain configuration is required")
  | some cfg =>
    match createChainS st cfg with
    | (st₁, .error e) => (st₁, .error e)
    | (st₁, .ok chainId) =>
      match prepareChainDistributionS st₁ chainId with
      | (st₂, .error e) => (st₂, .error e)
      | (st₂, .ok _) =>
        let st₃ := updateChainRel st₂ chainId (fun r => { r with dataRef := data })
        let st₄ :=
          match parentChainId with
          | some pid =>
            let children := ((alGet st₃.childChains pid).getD []) ++ [chainId]
            { st₃ with childChains := alSet st₃.childChains pid children }
          | none => st₃
        (st₄, .ok chainId)

/-- `NodeSupervisor.getNodesByServiceAndChain` (894-909): nodes whose
config carries the chain id and hosts the service uid. -/
def getNodesByServiceAndChain (st : SupState) (serviceUid chainId : String) : List SNode :=
  (st.nodes.map (fun p => p.2)).filter (fun n =>
    match n.config with
    | none => false
    | some cfg =>
      cfg.chainId = some chainId
        && cfg.services.any (fun s => serviceTargetId s = serviceUid))

/-- The slicing loop of `Node.getPipelineGenerator` (165-172), structurally
recursive on a fuel that bounds the iteration count (the loop advances by
`count ≥ 1` per step, so `l.length` iterations always suffice). -/
def chunksOfAux (count : Nat) (fuel : Nat) (l : List α) : List (List α) :=
  match fuel, l, count with
  | _, [], _ => []
  | 0, _ :: _, _ => []
  | _ + 1, _ :: _, 0 => []
  | fuel + 1, x :: xs, c + 1 =>
    (x :: xs).take (c + 1) :: chunksOfAux (c + 1) fuel ((x :: xs).drop (c + 1))

/-- `Node.getPipelineGenerator` (165-172): slices of `count` pipelines,
`yield pipelines.slice(i, i + count)` for `i = 0, count, 2*count, ...`. -/
def chunksOf (count : Nat) (l : List α) : List (List α) :=
  chunksOfAux count l.length l

/-- `Node.processPipeline` (147-156): fold the data through the processors
of one pipeline; the external process callback is the parameter `digestF`
(it receives the processor and the node config, as in
`processor.digest(result, this.getConfig())`). -/
def processPipelineModel (digestF : ServiceConfig → Option NodeConfig → JVal → JVal)
    (cfg : Option NodeConfig) (pipeline : List ServiceConfig) (data : JVal) : JVal :=
  pipeline.foldl (fun d p => digestF p cfg d) data

/-- Intermediate state of one `execute` run: collected `output`, the
`progress` value, the number of pipelines completed so far and the history
of `progress` values after each completion. -/
structure BatchState where
  output : List JVal
  progress : ℚ
  processed : Nat
  progressHist : List ℚ

/-- `Node.processBatch` (385-407): every pipeline of the batch digests the
same input data; each completion appends its result to `output` and
`updateProgress` adds `1 / this.pipelines.length` (lines 75-77), where `n`
is the node pipeline count. -/
def processBatchModel (digestF : ServiceConfig → Option NodeConfig → JVal → JVal)
    (cfg : Option NodeConfig) (n : Nat) (data : JVal)
    (batch : List (List ServiceConfig)) (st : BatchState) : BatchState :=
  batch.foldl
    (fun acc pl =>
      { output := acc.output ++ [processPipelineModel digestF cfg pl data],
        progress := acc.progress + 1 / (n : ℚ),
        processed := acc.processed + 1,
        progressHist := acc.progressHist ++ [acc.progress + 1 / (n : ℚ)] })
    st

/-- The `while (!nextResult.done)` loop of `Node.execute` (332-351): after
each batch the status manager queue is drained; when the drained statuses
contain `NODE_SUSPENDED` the execution stashes its cursor and returns.
`suspendAt i` abstracts the outcome of the `statusManager.process()` drain
after the i-th batch. Returns the final state and whether the run
suspended. -/
def runBatchLoop (digestF : ServiceConfig → Option NodeConfig → JVal → JVal)
    (cfg : Option NodeConfig) (n : Nat) (data : JVal) (suspendAt : Nat → Bool) :
    List (List (List ServiceConfig)) → Nat → BatchState → BatchState × Bool
  | [], _, st => (st, false)
  | b :: rest, i, st =>
    let st₁ := processBatchModel digestF cfg n data b st
    if suspendAt i then (st₁, true)
    else runBatchLoop digestF cfg n data suspendAt rest (i + 1) st₁

/-- Observable outcome of one `Node.execute` run. `dataAfterPre` is the
data value after the pre-stage merge; `terminatedWith` is `some out` when
`Node.terminate` was called with `out`. -/
structure ExecResult where
  statusUpdates : List ChainStatus
  output : List JVal
  progress : ℚ
  processed : Nat
  progressHist : List ℚ
  dataAfterPre : JVal
  suspendedRun : Bool
  suspendedCleared : Bool
  terminatedWith : Option (List JVal)

/-- `Node.execute` (290-376) as a function of the run inputs: the pre-stage
merge (when `config.pre` is non-empty), the `NODE_IN_PROGRESS` transition,
then either the batch loop (fresh run) or — when the status manager holds a
suspended state — the restored single-element output; completion clears the
suspended state, transitions to `NODE_COMPLETED` and terminates with the
output. `preResp` is the value returned by `broadcastNodePreSignal`;
`initOutput` and `initProgress` are the node fields entering the run. -/
def executeNodeModel (digestF : ServiceConfig → Option NodeConfig → JVal → JVal)
    (cfg : Option NodeConfig) (pipelines : List (List ServiceConfig))
    (initOutput : List JVal) (initProgress : ℚ)
    (suspendedState : Option SuspendedState) (suspendAt : Nat → Bool)
    (preResp : JVal) (data : JVal) : ExecResult :=
  let hasPre : Bool :=
    match cfg with
    | some c => decide (0 < c.pre.length)
    | none => false
  let data₁ := if hasPre then mergePreT data preResp else data
  match suspendedState with
  | some s =>
    let restored : JVal :=
      .obj (.cons "data" s.data (.cons "previousNodeParams" s.previousNodeParams .nil))
    { statusUpdates := [.NODE_IN_PROGRESS, .NODE_COMPLETED],
      output := [restored], progress := initProgress, processed := 0,
      progressHist := [], dataAfterPre := data₁, suspendedRun := false,
      suspendedCleared := true, terminatedWith := some [restored] }
  | none =>
    let n := pipelines.length
    let batches := chunksOf 3 pipelines
    let r := runBatchLoop digestF cfg n data₁ suspendAt batches 0
      ⟨initOutput, initProgress, 0, []⟩
    if r.2 then
      { statusUpdates := [.NODE_IN_PROGRESS], output := r.1.output,
        progress := r.1.progress, processed := r.1.processed,
        progressHist := r.1.progressHist, dataAfterPre := data₁,
        suspendedRun := true, suspendedCleared := false, terminatedWith := none }
    else
      { statusUpdates := [.NODE_IN_PROGRESS, .NODE_COMPLETED], output := r.1.output,
        progress := r.1.progress, processed := r.1.processed,
        progressHist := r.1.progressHist, dataAfterPre := data₁,
        suspendedRun := false, suspendedCleared := true,
        terminatedWith := some r.1.output }

/-- Modelled from the spec: `ChainType.PERSISTANT` (the `types.ts` defining
the bitmask constants is not under `src/`; the spec defines the chain type
as an int bitmask whose `PERSISTANT` and `AUTO_DELETE` bits are distinct,
other bits reserved). -/
def ChainType.PERSISTANT : Nat := 2

/-- Modelled from the spec: `ChainType.AUTO_DELETE`, the other defined bit
of the chain type bitmask. -/
def ChainType.AUTO_DELETE : Nat := 4

/-- The three possible post-hand-off outcomes of `Node.moveToNextNode`. -/
inductive DeletionOutcome where
  | kept
  | nodeDeleteRequested
  | pendingDeletionEmitted
  deriving DecidableEq, Repr

/-- The deletion decision of `Node.moveToNextNode` (476-491):
`(chainType ?? 0) & PERSISTANT` keeps the node; otherwise
`(chainType ?? 0) & AUTO_DELETE` requests `NODE_DELETE` from the
supervisor; otherwise `NODE_PENDING_DELETION` is emitted as global-signal
and nothing is deleted. -/
def deletionPolicy (chainType : Option Nat) : DeletionOutcome :=
  let ct := chainType.getD 0
  if ct &&& ChainType.PERSISTANT ≠ 0 then .kept
  else if ct &&& ChainType.AUTO_DELETE ≠ 0 then .nodeDeleteRequested
  else .pendingDeletionEmitted

/-- Supervisor request payloads (`SupervisorPayload`), tags of
`handleRequest`. -/
inductive SupervisorPayload where
  | nodeSetup (config : NodeConfig)
  | nodeCreate (params : NodeConfig)
  | nodeDelete (id : Nat)
  | nodeRun (id : Nat) (data : Option JVal)
  | nodeSendData (id : Nat)
  | chainPrepare (id : String)
  | chainStart (id : String) (data : Option JVal)
  | chainStartPendingOccurrence (id : String)
  | chainDeploy (config : List NodeConfig) (data : Option JVal)
  | unknownSignal

/-- The hand-off stage of `Node.moveToNextNode` (453-475): LOCAL hops issue
`NODE_RUN` back into the supervisor (`next` is the recursive
`handleRequest` entry), REMOTE hops call the remote service callback
(outbound, no supervisor state change), and a null `nextNodeInfo` emits
`NODE_END_OF_PIPELINE` (reporting only). -/
def handOffH (next : SupState → SupervisorPayload → SupState) (st : SupState)
    (node : SNode) (data : Option JVal) : SupState :=
  match node.nextNodeInfo with
  | some info =>
    match info.type, info.id with
    | .LOCAL, .uuid nid => next st (.nodeRun nid data)
    | _, _ => st
  | none => st

/-- `Node.moveToNextNode` (441-492): look up the node, hand off the data,
then apply the deletion policy; the second component reports the policy
outcome that was applied (`none` when the node was not found). -/
def moveToNextNodeH (next : SupState → SupervisorPayload → SupState) (st : SupState)
    (nodeId : Nat) (data : Option JVal) : SupState × Option DeletionOutcome :=
  match alGet st.nodes nodeId with
  | none => (st, none)
  | some node =>
    let st₁ := handOffH next st node data
    match deletionPolicy (node.config.bind (fun c => c.chainType)) with
    | .kept => (st₁, some .kept)
    | .nodeDeleteRequested => (next st₁ (.nodeDelete nodeId), some .nodeDeleteRequested)
    | .pendingDeletionEmitted => (st₁, some .pendingDeletionEmitted)

/-- Write back the fields of the executed node under its id, then
terminate via `moveToNextNode` with `output[0]` when the run completed. -/
def applyExecOutcome (next : SupState → SupervisorPayload → SupState) (st : SupState)
    (id : Nat) (node₁ : SNode) (term : Option (List JVal)) : SupState :=
  let st₁ := { st with nodes := alSet st.nodes id node₁ }
  match term with
  | some out => (moveToNextNodeH next st₁ id out.head?).1
  | none => st₁

/-- The node fields after one `execute` run (status transition, output,
progress, the status-manager suspended state and queue — the manager
source is not under `src/`, its drain is modelled from the spec). -/
def nodeAfterExec (node : SNode) (r : ExecResult) : SNode :=
  let newSuspended : Option SuspendedState :=
    if r.suspendedCleared then none
    else if r.suspendedRun then some { data := r.dataAfterPre, previousNodeParams := .null }
    else node.suspended
  let newStatus : ChainStatus :=
    if r.terminatedWith.isSome then .NODE_COMPLETED
    else if r.suspendedRun then .NODE_SUSPENDED
    else .NODE_IN_PROGRESS
  { node with
      status := newStatus, output := r.output, progress := r.progress,
      suspended := newSuspended,
      signalQueue := if node.suspended.isSome then node.signalQueue else [] }

/-- One `Node.execute` at supervisor level: run the node model (the
suspension decision abstracts the status-manager drain of the enqueued
signals after the first batch), write the node fields back and apply the
termination hand-off. -/
def executeH (digestF : ServiceConfig → Option NodeConfig → JVal → JVal) (preResp : JVal)
    (next : SupState → SupervisorPayload → SupState) (st : SupState)
    (id : Nat) (node : SNode) (data : Option JVal) : SupState :=
  let r := executeNodeModel digestF node.config node.pipelines node.output node.progress
    node.suspended (fun i => decide (i = 0) && node.signalQueue.contains .NODE_SUSPEND)
    preResp (data.getD .null)
  applyExecOutcome next st id (nodeAfterExec node r) r.terminatedWith

/-- `NodeSupervisor.runNode` (815-822): execute the node when present. -/
def runNodeH (digestF : ServiceConfig → Option NodeConfig → JVal → JVal) (preResp : JVal)
    (next : SupState → SupervisorPayload → SupState) (st : SupState)
    (id : Nat) (data : Option JVal) : SupState :=
  match alGet st.nodes id with
  | none => st
  | some node => executeH digestF preResp next st id node data

/-- `NodeSupervisor.startChain` (777-808): look up chain, root node id and
root node, then run it with the data. -/
def startChainH (digestF : ServiceConfig → Option NodeConfig → JVal → JVal) (preResp : JVal)
    (next : SupState → SupervisorPayload → SupState) (st : SupState)
    (chainId : String) (data : Option JVal) : SupState :=
  match alGet st.chains chainId with
  | none => st
  | some chain =>
    match chain.rootNodeId with
    | none => st
    | some rootId =>
      match alGet st.nodes rootId with
      | none => st
      | some _ => runNodeH digestF preResp next st rootId data

/-- `NodeSupervisor.startPendingChain` (716-770): read `dataRef`; with a
`rootConfig` on the first config the chain runs as a child (parallel or
serial, both via `startChain`); otherwise `startChain` directly (with the
data when present). -/
def startPendingChainH (digestF : ServiceConfig → Option NodeConfig → JVal → JVal)
    (preResp : JVal) (next : SupState → SupervisorPayload → SupState) (st : SupState)
    (chainId : String) : SupState :=
  match alGet st.chains chainId with
  | none => startChainH digestF preResp next st chainId none
  | some chain =>
    match chain.dataRef with
    | none => startChainH digestF preResp next st chainId none
    | some data =>
      match (chain.config.head?).bind (fun c => c.rootConfig) with
      | some _ => startChainH digestF preResp next st chainId (some data)
      | none => startChainH digestF preResp next st chainId (some data)

/-- `NodeSupervisor.handleRequest` (193-228) with a fuel bound on the
cascade depth (each local hand-off re-enters `handleRequest`); fuel 0 stops
the cascade. `NODE_SEND_DATA` only awaits the execution queue and changes
no supervisor state. -/
def handleRequestF (digestF : ServiceConfig → Option NodeConfig → JVal → JVal)
    (preResp : JVal) : Nat → SupState → SupervisorPayload → SupState
  | 0, st, _ => st
  | fuel + 1, st, p =>
    let next := handleRequestF digestF preResp fuel
    match p with
    | .nodeSetup config => (setupNodeS st config false).1
    | .nodeCreate params => (createNodeS st params).1
    | .nodeDelete id => deleteNodeS st id
    | .nodeRun id data => runNodeH digestF preResp next st id data
    | .nodeSendData _ => st
    | .chainPrepare id => (prepareChainDistributionS st id).1
    | .chainStart id data => startChainH digestF preResp next st id data
    | .chainStartPendingOccurrence id => startPendingChainH digestF preResp next st id
    | .chainDeploy config data => (deployChainS st (some config) data none).1
    | .unknownSignal => st

/-- `NodeSupervisor.runNodeByRelation` (828-858): the whole body is inside
a try whose catch swallows every error, so the function always returns
normally; an undefined `chainId` or `targetId`, or an empty
`(targetId, chainId)` lookup, throws internally and is caught. The second
component reports the node id a `NODE_RUN` was issued for (`none` when no
node was run). -/
def runNodeByRelationH (next : SupState → SupervisorPayload → SupState) (st : SupState)
    (targetId chainId : Option String) (data : Option JVal) : SupState × Option Nat :=
  match chainId with
  | none => (st, none)
  | some cid =>
    match targetId with
    | none => (st, none)
    | some tid =>
      match getNodesByServiceAndChain st tid cid with
      | [] => (st, none)
      | n :: _ => (next st (.nodeRun n.id data), some n.id)

/-- The node produced by `setupNode` for a config (before any relinking by
`prepareChainDistribution`): one pipeline of processors from the services,
the signal queue from the config, and a REMOTE next hop when
`nextTargetId` is defined. -/
def setupNodeResult (nodeId : Nat) (cfg : NodeConfig) : SNode :=
  let base : SNode :=
    { id := nodeId, config := some cfg, pipelines := [cfg.services.map toProcessor],
      signalQueue := cfg.signalQueue }
  match cfg.nextTargetId with
  | some tid => { base with nextNodeInfo := some ⟨.target tid, .REMOTE, cfg.nextMeta⟩ }
  | none => base

/-- The node produced for a local config by the linking pass of
`prepareChainDistribution`: the `setupNode` result, relinked to the next
local node as LOCAL when one follows (`link`). -/
def localLinkNode (chainId : String) (nodeId : Nat) (cfg : NodeConfig)
    (link : Option Nat) : SNode :=
  let base := setupNodeResult nodeId { cfg with chainId := some chainId }
  match link with
  | some nxt => { base with nextNodeInfo := some ⟨.uuid nxt, .LOCAL, none⟩ }
  | none => base

/-- The nodes-map well-formedness invariant of the supervisor: every
binding maps a key to a node whose UUID is that key, and every key is below
the id supply counter (so freshly issued ids are genuinely new). -/
def NodesWF (st : SupState) : Prop :=
  ∀ p ∈ st.nodes, (p.2).id = p.1 ∧ p.1 < st.fresh

/-- Concrete example fixture: the remote service of the mixed
local-remote chain scenario (spec section 8, scenario 2). -/
def exampleRemoteService : ServiceConfig :=
  { targetId := "http://h9/svc", meta := some { resolver := some "http://h9/" } }

/-- Concrete example fixture: the local entry of the mixed chain. -/
def exampleLocalCfg : NodeConfig :=
  { services := [Service.str "svcL"], location := "local", monitoringHost := some "mon" }

/-- Concrete example fixture: the remote entry of the mixed chain. -/
def exampleRemoteCfg : NodeConfig :=
  { services := [Service.obj exampleRemoteService], location := "remote" }

/-- Concrete example fixture: a supervisor state holding the mixed chain
under chain id "CID". -/
def exampleChainState : SupState :=
  { chains := [("CID", { config := [exampleLocalCfg, exampleRemoteCfg] })] }

section Lemmas

variable {κ : Type} {α : Type} [DecidableEq κ]

theorem alGet_alSet_self (m : List (κ × α)) (k : κ) (v : α) :
    alGet (alSet m k v) k = some v := by
  induction m with
  | nil => simp [alGet, alSet]
  | cons p rest ih =>
    by_cases h : p.1 = k
    · simp [alSet, h, alGet]
    · simp [alSet, h, alGet, ih]

theorem alGet_alSet_ne (m : List (κ × α)) (k k₁ : κ) (v : α) (h : k₁ ≠ k) :
    alGet (alSet m k v) k₁ = alGet m k₁ := by
  induction m with
  | nil => simp [alGet, alSet, if_neg (Ne.symm h)]
  | cons p rest ih =>
    rcases p with ⟨pk, pv⟩
    by_cases hp : pk = k
    · subst hp
      simp [alGet, alSet, if_neg (Ne.symm h)]
    · by_cases hp₁ : pk = k₁
      · simp [alGet, alSet, if_neg hp, if_pos hp₁]
      · simp [alGet, alSet, if_neg hp, if_neg hp₁, ih]

theorem alGet_alDel_ne (m : List (κ × α)) (k k₁ : κ) (h : k₁ ≠ k) :
    alGet (alDel m k) k₁ = alGet m k₁ := by
  induction m with
  | nil => simp [alDel]
  | cons p rest ih =>
    rcases p with ⟨pk, pv⟩
    by_cases hp : pk = k
    · subst hp
      simp [alDel, alGet, if_neg (Ne.symm h)]
    · by_cases hp₁ : pk = k₁
      · simp [alDel, alGet, if_neg hp, if_pos hp₁]
      · simp [alDel, alGet, if_neg hp, if_neg hp₁, ih]

theorem mem_of_mem_alSet (m : List (κ × α)) (k : κ) (v : α) (p : κ × α)
    (h : p ∈ alSet m k v) : p = (k, v) ∨ p ∈ m := by
  induction m with
  | nil => simpa [alSet] using h
  | cons q rest ih =>
    rcases q with ⟨qk, qv⟩
    by_cases hq : qk = k
    · subst hq
      simp only [alSet, if_pos rfl] at h
      rcases List.mem_cons.mp h with h₁ | h₁
      · exact Or.inl h₁
      · exact Or.inr (List.mem_cons_of_mem _ h₁)
    · simp only [alSet, if_neg hq] at h
      rcases List.mem_cons.mp h with h₁ | h₁
      · exact Or.inr (h₁ ▸ List.mem_cons_self _ _)
      · rcases ih h₁ with h₂ | h₂
        · exact Or.inl h₂
        · exact Or.inr (List.mem_cons_of_mem _ h₂)

theorem mem_of_mem_alDel (m : List (κ × α)) (k : κ) (p : κ × α)
    (h : p ∈ alDel m k) : p ∈ m := by
  induction m with
  | nil => simpa [alDel] using h
  | cons q rest ih =>
    rcases q with ⟨qk, qv⟩
    by_cases hq : qk = k
    · subst hq
      simp only [alDel, if_pos rfl] at h
      exact List.mem_cons_of_mem _ h
    · simp only [alDel, if_neg hq] at h
      rcases List.mem_cons.mp h with h₁ | h₁
      · exact h₁ ▸ List.mem_cons_self _ _
      · exact List.mem_cons_of_mem _ (ih h₁)

theorem alGet_mem (m : List (κ × α)) (k : κ) (v : α) (h : alGet m k = some v) :
    (k, v) ∈ m := by
  induction m with
  | nil => simp [alGet] at h
  | cons q rest ih =>
    rcases q with ⟨qk, qv⟩
    by_cases hq : qk = k
    · subst hq
      simp [alGet] at h
      subst h
      exact List.mem_cons_self _ _
    · simp only [alGet, if_neg hq] at h
      exact List.mem_cons_of_mem _ (ih h)

end Lemmas

end DPCP

namespace DPCP

/-- C2 counterexample: the claim reads the condition as
`data.additionalData` merely existing, and the fresh `additionalData` as
`[preData]` verbatim. For `data = \x7b"x":1, "additionalData":[]\x7d` and
`preData = \x7b"data":\x7b"y":2\x7d\x7d` the claim predicts the append
result `data` with `additionalData = [preData]`, but the code takes the
fresh-merge branch (the array is empty, so the guard
`data.additionalData && data.additionalData.length > 0` fails) and pushes
`preData?.data ?? preData = \x7b"y":2\x7d`, not `preData`. -/
theorem mergePre_exists_append_counterexample :
    mergePre
        (.obj (.cons "x" (.num 1) (.cons "additionalData" (.arr .nil) .nil)))
        (.obj (.cons "data" (.obj (.cons "y" (.num 2) .nil)) .nil))
      ≠ .ok (jSet (.obj (.cons "x" (.num 1) (.cons "additionalData" (.arr .nil) .nil)))
          "additionalData"
          (.arr (JArr.nil.push (.obj (.cons "data" (.obj (.cons "y" (.num 2) .nil)) .nil)))))
    ∧ jGet (.obj (.cons "x" (.num 1) (.cons "additionalData" (.arr .nil) .nil)))
        "additionalData" = some (.arr .nil) := by
  constructor
  · decide
  · decide

/-- C2 (amended): the pre-stage merge tests `data.additionalData &&
data.additionalData.length > 0`. When `data.additionalData` is a non-empty
array, `preData` is pushed onto it; when it is any other truthy value whose
`length` compares greater than zero (e.g. a non-empty string), `push` is
not a function and the merge throws a `TypeError` (which `execute`'s catch
turns into `NODE_FAILED`), so no merge occurs; otherwise (field absent or
falsy, or its `length` not comparing above zero — in particular an empty
array) the original data moves to `origin` and a fresh `additionalData`
holds `preData.data` when `preData` carries a non-null `data` field, else
`preData` itself. The literal example of the spec holds: input
`\x7b"x":1\x7d` with `preData = \x7b"y":2\x7d` yields
`\x7b"additionalData":[\x7b"y":2\x7d],"origin":\x7b"x":1\x7d\x7d`. -/
theorem mergePre_merge_rule (data preData : JVal) :
    (∀ a, jGet data "additionalData" = some (.arr a) → 0 < a.length →
        mergePre data preData
          = .ok (jSet data "additionalData" (.arr (a.push preData))))
    ∧ (∀ v, jGet data "additionalData" = some v →
        jTruthy v = true → jGtZero (jLengthVal v) = true → (∀ a, v ≠ .arr a) →
        mergePre data preData = .typeError)
    ∧ (jGet data "additionalData" = none →
        mergePre data preData = .ok (mergeFresh data preData))
    ∧ (∀ v, jGet data "additionalData" = some v →
        jTruthy v = false ∨ jGtZero (jLengthVal v) = false →
        mergePre data preData = .ok (mergeFresh data preData))
    ∧ jGet (mergeFresh data preData) "origin" = some data
    ∧ jGet (mergeFresh data preData) "additionalData"
        = some (.arr (.cons (preCoalesce preData) .nil))
    ∧ mergePre (.obj (.cons "x" (.num 1) .nil)) (.obj (.cons "y" (.num 2) .nil))
        = .ok (.obj (.cons "additionalData"
            (.arr (.cons (.obj (.cons "y" (.num 2) .nil)) .nil))
            (.cons "origin" (.obj (.cons "x" (.num 1) .nil)) .nil))) := by
  refine ⟨?_, ?_, ?_, ?_, ?_, ?_, ?_⟩
  · intro a ha hl
    rw [mergePre, ha]
    exact if_pos hl
  · intro v hv htr hgt hna
    cases v with
    | arr a => exact absurd rfl (hna a)
    | null =>
      rw [mergePre, hv]
      exact if_pos (by rw [htr, hgt]; rfl)
    | bool b =>
      rw [mergePre, hv]
      exact if_pos (by rw [htr, hgt]; rfl)
    | num n =>
      rw [mergePre, hv]
      exact if_pos (by rw [htr, hgt]; rfl)
    | str s =>
      rw [mergePre, hv]
      exact if_pos (by rw [htr, hgt]; rfl)
    | obj o =>
      rw [mergePre, hv]
      exact if_pos (by rw [htr, hgt]; rfl)
  · intro ha
    rw [mergePre, ha]
  · intro v hv hor
    cases v with
    | arr a =>
      rcases hor with h | h
      · exact absurd h (by simp [jTruthy])
      · rw [mergePre, hv]
        refine if_neg fun hl => ?_
        rw [show jGtZero (jLengthVal (JVal.arr a)) = true from decide_eq_true
          (by exact_mod_cast hl)] at h
        exact Bool.noConfusion h
    | null =>
      rw [mergePre, hv]
      refine if_neg fun hc => ?_
      rcases hor with h | h <;> rw [h] at hc <;> simp at hc
    | bool b =>
      rw [mergePre, hv]
      refine if_neg fun hc => ?_
      rcases hor with h | h <;> rw [h] at hc <;> simp at hc
    | num n =>
      rw [mergePre, hv]
      refine if_neg fun hc => ?_
      rcases hor with h | h <;> rw [h] at hc <;> simp at hc
    | str s =>
      rw [mergePre, hv]
      refine if_neg fun hc => ?_
      rcases hor with h | h <;> rw [h] at hc <;> simp at hc
    | obj o =>
      rw [mergePre, hv]
      refine if_neg fun hc => ?_
      rcases hor with h | h <;> rw [h] at hc <;> simp at hc
  · simp [mergeFresh, jGet, JObj.get]
  · simp [mergeFresh, jGet, JObj.get]
  · decide

/-- C2 witness: the amended rule at concrete inputs — a non-empty array
`additionalData = [7]` gets `preData = 5` appended, while a non-empty
string `additionalData = "ab"` passes the guard and `push` throws the
`TypeError`. -/
theorem mergePre_merge_rule_witness :
    mergePre (.obj (.cons "additionalData" (.arr (.cons (.num 7) .nil)) .nil)) (.num 5)
      = .ok (jSet (.obj (.cons "additionalData" (.arr (.cons (.num 7) .nil)) .nil))
          "additionalData" (.arr ((JArr.cons (.num 7) .nil).push (.num 5))))
    ∧ mergePre (.obj (.cons "additionalData" (.str "ab") .nil)) (.num 5)
      = .typeError :=
  ⟨(mergePre_merge_rule
        (.obj (.cons "additionalData" (.arr (.cons (.num 7) .nil)) .nil)) (.num 5)).1
      (.cons (.num 7) .nil) (by decide) (by decide),
    (mergePre_merge_rule
        (.obj (.cons "additionalData" (.str "ab") .nil)) (.num 5)).2.1
      (.str "ab") (by decide) (by decide) (by decide) (fun a h => nomatch h)⟩

/-- C7 counterexample: `pre = [[]]` is a non-empty array of inner lists,
yet no `broadcastNodePreSignal` invocation occurs — the loop in
`processPreChain` skips every empty inner list and falls through, so the
claim that exactly one invocation occurs fails. -/
theorem processPreChain_allEmpty_counterexample :
    0 < ([([] : List PreNodeConfig)] : List (List PreNodeConfig)).length
    ∧ processPreChain { pre := [([] : List PreNodeConfig)] } = none := by
  exact ⟨by decide, by decide⟩

theorem firstNonEmptyPre_of_split (l₁ l₂ : List (List PreNodeConfig))
    (p : List PreNodeConfig) (hemp : ∀ q ∈ l₁, q = []) (hp : p ≠ []) :
    firstNonEmptyPre (l₁ ++ p :: l₂) = some p := by
  induction l₁ with
  | nil =>
    simp only [List.nil_append, firstNonEmptyPre]
    simp [List.length_pos.mpr hp]
  | cons q rest ih =>
    have hq : q = [] := hemp q (List.mem_cons_self _ _)
    subst hq
    simp only [List.cons_append, firstNonEmptyPre, List.length_nil]
    exact ih (fun r hr => hemp r (List.mem_cons_of_mem _ hr))

theorem annotatePre_length (cfg : NodeConfig) (l : List PreNodeConfig) :
    (annotatePre cfg l).length = l.length := by
  induction l with
  | nil => rfl
  | cons c rest ih => simp [annotatePre, ih]

theorem annotatePre_pre_irrelevant (cfg : NodeConfig)
    (x : List (List PreNodeConfig)) (l : List PreNodeConfig) :
    annotatePre { cfg with pre := x } l = annotatePre cfg l := by
  induction l with
  | nil => rfl
  | cons c rest ih => simp [annotatePre, annotatePreEntry, ih]

/-- C7 (amended): when some inner list of a non-empty `config.pre` has
`length > 0`, exactly one `broadcastNodePreSignal` invocation occurs, built
from the first such inner list (its entries annotated by `annotatePre`);
the inner lists after it are ignored — replacing them changes nothing —
and when every inner list is empty no invocation occurs. -/
theorem processPreChain_first_nonempty (cfg : NodeConfig)
    (l₁ l₂ : List (List PreNodeConfig)) (p : List PreNodeConfig)
    (hsplit : cfg.pre = l₁ ++ p :: l₂) (hemp : ∀ q ∈ l₁, q = []) (hp : p ≠ []) :
    processPreChain cfg = some (annotatePre cfg p)
    ∧ (∀ l₃ : List (List PreNodeConfig),
        processPreChain { cfg with pre := l₁ ++ p :: l₃ } = processPreChain cfg)
    ∧ (annotatePre cfg p).length = p.length := by
  have hfirst : firstNonEmptyPre cfg.pre = some p := by
    rw [hsplit]
    exact firstNonEmptyPre_of_split l₁ l₂ p hemp hp
  have hlen : 0 < cfg.pre.length := by
    rw [hsplit]
    simp
  have hmain : processPreChain cfg = some (annotatePre cfg p) := by
    rw [processPreChain, if_pos hlen, hfirst]
    rfl
  refine ⟨hmain, ?_, ?_⟩
  · intro l₃
    have hfirst₃ : firstNonEmptyPre (l₁ ++ p :: l₃) = some p :=
      firstNonEmptyPre_of_split l₁ l₃ p hemp hp
    have hlen₃ : 0 < (l₁ ++ p :: l₃).length := by simp
    rw [hmain, processPreChain]
    rw [if_pos hlen₃, hfirst₃]
    simp [annotatePre_pre_irrelevant]
  · exact annotatePre_length cfg p

/-- C7 witness: a concrete `pre = [[], [c₁], [c₂]]` — the broadcast is
built from `[c₁]`, the later `[c₂]` is ignored, and the annotated list has
one entry. -/
theorem processPreChain_first_nonempty_witness :
    processPreChain
        { services := [.str "own"], chainId := some "CID",
          pre := [[], [{ services := [.str "p1"] }], [{ services := [.str "p2"] }]] }
      = some (annotatePre
          { services := [.str "own"], chainId := some "CID",
            pre := [[], [{ services := [.str "p1"] }], [{ services := [.str "p2"] }]] }
          [{ services := [.str "p1"] }]) :=
  (processPreChain_first_nonempty _ [[]] [[{ services := [.str "p2"] }]]
    [{ services := [.str "p1"] }] rfl (by simp) (by simp)).1

theorem assignIndices_length (count : Nat) (mh : Option String) :
    ∀ (i : Nat) (cs : List NodeConfig), (assignIndices count mh i cs).length = cs.length := by
  intro i cs
  induction cs generalizing i with
  | nil => rfl
  | cons c rest ih => simp [assignIndices, ih]

theorem assignIndices_get? (count : Nat) (mh : Option String) :
    ∀ (cs : List NodeConfig) (i j : Nat),
      (assignIndices count mh i cs).get? j
        = (cs.get? j).map (fun c =>
            { c with index := some (i + j), count := some count, monitoringHost := mh }) := by
  intro cs
  induction cs with
  | nil => intro i j; simp [assignIndices]
  | cons c rest ih =>
    intro i j
    cases j with
    | zero => simp [assignIndices]
    | succ j₁ =>
      simp only [assignIndices, List.get?_cons_succ, ih (i + 1) j₁]
      have harith : i + 1 + j₁ = i + (j₁ + 1) := by omega
      rw [harith]

/-- C5 counterexample: `createChain` on the empty array — an array config —
does not return a chainId: `config[0].rootConfig` raises a `TypeError`
(`config[0]` is `undefined`), so the call throws. -/
theorem createChain_empty_config_counterexample :
    ∃ e, (createChainPure "@supervisor:default" 1736899200000
        "3b241101-e2bb-4255-8caf-4136c566a962" []).2 = Except.error e :=
  ⟨"TypeError: cannot read rootConfig of undefined", rfl⟩

/-- C5 (amended): on a NON-EMPTY array config, `createChain` returns the
chainId `uid ++ "-" ++ timestamp ++ "-" ++ randomUUID().slice(0, 8)` and
mutates every position i of the config with `index = i`,
`count = len(config)` and the monitoring host of the first entry (taken
from its `rootConfig` when present); hence `index` is dense and unique
within the chain and `count` equals `len(config)`. -/
theorem createChain_assigns_dense_indices (uid : String) (ts : Nat) (ruuid : String)
    (c₀ : NodeConfig) (rest : List NodeConfig) :
    (createChainPure uid ts ruuid (c₀ :: rest)).1
      = uid ++ "-" ++ toString ts ++ "-" ++ ruuid.take 8
    ∧ ∃ updated, (createChainPure uid ts ruuid (c₀ :: rest)).2 = .ok updated
        ∧ updated.length = (c₀ :: rest).length
        ∧ (∀ i, i < updated.length → ∃ u, updated.get? i = some u
            ∧ u.index = some i
            ∧ u.count = some (c₀ :: rest).length
            ∧ u.monitoringHost
                = (match c₀.rootConfig with
                   | some rc => rc.monitoringHost
                   | none => c₀.monitoringHost))
        ∧ (∀ i j u v, updated.get? i = some u → updated.get? j = some v →
            u.index = v.index → i = j) := by
  constructor
  · rfl
  · refine ⟨_, rfl, ?_, ?_, ?_⟩
    · exact assignIndices_length _ _ _ _
    · intro i hi
      rw [assignIndices_length] at hi
      have hg := List.get?_eq_get hi
      refine ⟨_, by rw [assignIndices_get? _ _ _ 0 i, hg]; rfl, ?_, ?_, ?_⟩
      · simp
      · simp
      · simp
    · intro i j u v hu hv hidx
      rw [assignIndices_get? _ _ _ 0 i] at hu
      rw [assignIndices_get? _ _ _ 0 j] at hv
      rcases Option.map_eq_some'.mp hu with ⟨cu, hcu, hucu⟩
      rcases Option.map_eq_some'.mp hv with ⟨cv, hcv, hvcv⟩
      have hui : u.index = some (0 + i) := by rw [← hucu]
      have hvi : v.index = some (0 + j) := by rw [← hvcv]
      rw [hui, hvi] at hidx
      have hij := Option.some.inj hidx
      omega

/-- C6: after every hand-off in `moveToNextNode`, exactly one of three
outcomes occurs, decided by the `chainType` bitmask: the `PERSISTANT` bit
keeps the node (the post-hand-off state is returned untouched — deleting a
PERSISTANT node on this path is a no-op); otherwise the `AUTO_DELETE` bit
issues a `NODE_DELETE` request to the supervisor; otherwise
`NODE_PENDING_DELETION` is emitted as global-signal and no deletion
happens. -/
theorem moveToNextNode_deletion_trichotomy (ct : Option Nat)
    (next : SupState → SupervisorPayload → SupState) (st : SupState) (nodeId : Nat)
    (node : SNode) (data : Option JVal)
    (hn : alGet st.nodes nodeId = some node)
    (hct : node.config.bind (fun c => c.chainType) = ct) :
    ((moveToNextNodeH next st nodeId data).2 = some (deletionPolicy ct))
    ∧ (deletionPolicy ct = .kept ↔ (ct.getD 0) &&& ChainType.PERSISTANT ≠ 0)
    ∧ (deletionPolicy ct = .nodeDeleteRequested ↔
        ((ct.getD 0) &&& ChainType.PERSISTANT = 0 ∧ (ct.getD 0) &&& ChainType.AUTO_DELETE ≠ 0))
    ∧ (deletionPolicy ct = .pendingDeletionEmitted ↔
        ((ct.getD 0) &&& ChainType.PERSISTANT = 0 ∧ (ct.getD 0) &&& ChainType.AUTO_DELETE = 0))
    ∧ (deletionPolicy ct = .kept →
        (moveToNextNodeH next st nodeId data).1 = handOffH next st node data)
    ∧ (deletionPolicy ct = .nodeDeleteRequested →
        (moveToNextNodeH next st nodeId data).1
          = next (handOffH next st node data) (.nodeDelete nodeId))
    ∧ (deletionPolicy ct = .pendingDeletionEmitted →
        (moveToNextNodeH next st nodeId data).1 = handOffH next st node data) := by
  subst hct
  have hiff₁ : deletionPolicy (node.config.bind (fun c => c.chainType)) = .kept
      ↔ ((node.config.bind (fun c => c.chainType)).getD 0) &&& ChainType.PERSISTANT ≠ 0 := by
    simp only [deletionPolicy]
    split_ifs with h₁ h₂ <;> simp_all
  have hiff₂ : deletionPolicy (node.config.bind (fun c => c.chainType)) = .nodeDeleteRequested
      ↔ (((node.config.bind (fun c => c.chainType)).getD 0) &&& ChainType.PERSISTANT = 0
          ∧ ((node.config.bind (fun c => c.chainType)).getD 0) &&& ChainType.AUTO_DELETE ≠ 0) := by
    simp only [deletionPolicy]
    split_ifs with h₁ h₂ <;> simp_all
  have hiff₃ : deletionPolicy (node.config.bind (fun c => c.chainType)) = .pendingDeletionEmitted
      ↔ (((node.config.bind (fun c => c.chainType)).getD 0) &&& ChainType.PERSISTANT = 0
          ∧ ((node.config.bind (fun c => c.chainType)).getD 0) &&& ChainType.AUTO_DELETE = 0) := by
    simp only [deletionPolicy]
    split_ifs with h₁ h₂ <;> simp_all
  refine ⟨?_, hiff₁, hiff₂, hiff₃, ?_, ?_, ?_⟩ <;>
    · simp only [moveToNextNodeH, hn]
      rcases hdp : deletionPolicy (node.config.bind (fun c => c.chainType)) with _ | _ | _ <;>
        simp_all

/-- C6 witness: a node with `chainType = PERSISTANT ||| AUTO_DELETE` is
kept — the outcome is `kept` and the state after the policy equals the
state after the hand-off. -/
theorem moveToNextNode_deletion_trichotomy_witness :
    ((moveToNextNodeH (fun s _ => s)
        { nodes := [(0, { id := 0, config := some { chainType := some 6 } })] }
        0 none).2 = some (deletionPolicy (some 6)))
    ∧ (deletionPolicy (some 6) = .kept ↔ ((some 6 : Option Nat).getD 0) &&& ChainType.PERSISTANT ≠ 0) := by
  have h := moveToNextNode_deletion_trichotomy (some 6) (fun s _ => s)
    { nodes := [(0, { id := 0, config := some { chainType := some 6 } })] }
    0 { id := 0, config := some { chainType := some 6 } } none (by rfl) (by rfl)
  exact ⟨h.1, h.2.1⟩

/-- C9: a deploy with a config-invalid chain configuration — absent
(`undefined`) or the empty array — aborts with the error surfaced to the
caller: `deployChain` catches, logs and rethrows. -/
theorem deployChain_invalid_config_throws (st : SupState) (data : Option JVal)
    (pid : Option String) :
    (∃ e, (deployChainS st none data pid).2 = .error e)
    ∧ (∃ e, (deployChainS st (some []) data pid).2 = .error e) :=
  ⟨⟨"Chain configuration is required", rfl⟩,
   ⟨"TypeError: cannot read rootConfig of undefined", rfl⟩⟩

/-- C8: a `runNodeByRelation` payload with an undefined `targetId` or
`chainId`, or whose `(targetId, chainId)` pair matches no registered node,
returns normally (the body is wrapped in a catch-all), leaves the
supervisor state — in particular the `nodes` and `chains` maps — unchanged
and issues no `NODE_RUN`. -/
theorem runNodeByRelation_miss_noop (next : SupState → SupervisorPayload → SupState)
    (st : SupState) (targetId chainId : Option String) (data : Option JVal)
    (hmiss : chainId = none ∨ targetId = none
      ∨ (∀ t c, targetId = some t → chainId = some c →
          getNodesByServiceAndChain st t c = [])) :
    runNodeByRelationH next st targetId chainId data = (st, none) := by
  rcases hmiss with h | h | h
  · subst h; rfl
  · subst h
    cases chainId <;> rfl
  · cases hc : chainId with
    | none => rfl
    | some c =>
      cases ht : targetId with
      | none => rfl
      | some t =>
        have hempty := h t c ht hc
        simp only [runNodeByRelationH, hempty]

/-- C8 witness: targetId "ghost" / chainId "unknown" against the empty
supervisor state: no node is run and the state is returned unchanged. -/
theorem runNodeByRelation_miss_noop_witness :
    runNodeByRelationH (fun s _ => s) {} (some "ghost") (some "unknown") none
      = ({}, none) :=
  runNodeByRelation_miss_noop (fun s _ => s) {} (some "ghost") (some "unknown") none
    (Or.inr (Or.inr (fun t c ht hc => by cases ht; cases hc; rfl)))

/-- C5 witness: a two-entry config whose first entry carries a rootConfig —
entry 1 receives index 1, count 2 and the rootConfig monitoring host. -/
theorem createChain_dense_indices_witness :
    ∃ updated,
      (createChainPure "@supervisor:u1" 111 "3b241101-e2bb-4255-8caf"
          [{ location := "local", monitoringHost := some "X",
             rootConfig := some { monitoringHost := some "mon" } },
           { location := "remote" }]).2 = .ok updated
      ∧ ∃ u, updated.get? 1 = some u ∧ u.index = some 1 ∧ u.count = some 2
          ∧ u.monitoringHost = some "mon" := by
  have h := createChain_assigns_dense_indices "@supervisor:u1" 111 "3b241101-e2bb-4255-8caf"
    { location := "local", monitoringHost := some "X",
      rootConfig := some { monitoringHost := some "mon" } }
    [{ location := "remote" }]
  rcases h.2 with ⟨upd, hok, hlen, hidx, _⟩
  rcases hidx 1 (by rw [hlen]; decide) with ⟨u, hg, hi, hc, hm⟩
  exact ⟨upd, hok, u, hg, hi, hc, hm⟩

/-- C3: a node executed while its status manager holds a suspended state
skips the batch generator entirely (no pipeline runs, whatever the
pipelines, the digest callback and the previous output were), replaces the
output with the single restored element, clears the suspended state,
transitions to `NODE_COMPLETED` and terminates with that one-element
output. -/
theorem execute_resume_skips_batches
    (digestF : ServiceConfig → Option NodeConfig → JVal → JVal)
    (cfg : Option NodeConfig) (pipelines : List (List ServiceConfig))
    (initOutput : List JVal) (initProgress : ℚ) (suspendAt : Nat → Bool)
    (preResp data : JVal) (s : SuspendedState) :
    (executeNodeModel digestF cfg pipelines initOutput initProgress (some s)
        suspendAt preResp data).output
      = [.obj (.cons "data" s.data (.cons "previousNodeParams" s.previousNodeParams .nil))]
    ∧ (executeNodeModel digestF cfg pipelines initOutput initProgress (some s)
        suspendAt preResp data).processed = 0
    ∧ (executeNodeModel digestF cfg pipelines initOutput initProgress (some s)
        suspendAt preResp data).suspendedCleared = true
    ∧ (executeNodeModel digestF cfg pipelines initOutput initProgress (some s)
        suspendAt preResp data).statusUpdates = [.NODE_IN_PROGRESS, .NODE_COMPLETED]
    ∧ (executeNodeModel digestF cfg pipelines initOutput initProgress (some s)
        suspendAt preResp data).terminatedWith
      = some [.obj (.cons "data" s.data (.cons "previousNodeParams" s.previousNodeParams .nil))] :=
  ⟨rfl, rfl, rfl, rfl, rfl⟩

theorem chunksOfAux_flatten (c : Nat) :
    ∀ (fuel : Nat) (l : List α), l.length ≤ fuel →
      (chunksOfAux (c + 1) fuel l).flatten = l := by
  intro fuel
  induction fuel with
  | zero =>
    intro l hl
    cases l with
    | nil => rfl
    | cons x xs => simp at hl
  | succ fuel ih =>
    intro l hl
    cases l with
    | nil => rfl
    | cons x xs =>
      simp only [chunksOfAux, List.flatten_cons]
      rw [ih ((x :: xs).drop (c + 1))
        (by simp only [List.length_drop, List.length_cons] at hl ⊢; omega)]
      exact List.take_append_drop _ _

theorem chunksOf_flatten (c : Nat) (l : List α) : (chunksOf (c + 1) l).flatten = l :=
  chunksOfAux_flatten c l.length l le_rfl

theorem processBatchModel_inv (digestF : ServiceConfig → Option NodeConfig → JVal → JVal)
    (cfg : Option NodeConfig) (n : Nat) (data : JVal) :
    ∀ (batch : List (List ServiceConfig)) (st : BatchState),
      st.progress = (st.processed : ℚ) / (n : ℚ) →
      st.progressHist
        = (List.range st.processed).map (fun t : Nat => ((t : ℚ) + 1) / (n : ℚ)) →
      ((processBatchModel digestF cfg n data batch st).progress
          = ((processBatchModel digestF cfg n data batch st).processed : ℚ) / (n : ℚ)
        ∧ (processBatchModel digestF cfg n data batch st).progressHist
          = (List.range (processBatchModel digestF cfg n data batch st).processed).map
              (fun t : Nat => ((t : ℚ) + 1) / (n : ℚ))
        ∧ (processBatchModel digestF cfg n data batch st).processed
          = st.processed + batch.length) := by
  intro batch
  induction batch with
  | nil =>
    intro st h₁ h₂
    exact ⟨h₁, h₂, rfl⟩
  | cons pl rest ih =>
    intro st h₁ h₂
    have hstep₁ : st.progress + 1 / (n : ℚ)
        = ((st.processed + 1 : Nat) : ℚ) / (n : ℚ) := by
      rw [h₁]
      push_cast
      rw [div_add_div_same]
    have hstep₂ : st.progressHist ++ [st.progress + 1 / (n : ℚ)]
        = (List.range (st.processed + 1)).map (fun t : Nat => ((t : ℚ) + 1) / (n : ℚ)) := by
      rw [List.range_succ, List.map_append, ← h₂, hstep₁]
      push_cast
      rfl
    have hres := ih
      { output := st.output ++ [processPipelineModel digestF cfg pl data],
        progress := st.progress + 1 / (n : ℚ),
        processed := st.processed + 1,
        progressHist := st.progressHist ++ [st.progress + 1 / (n : ℚ)] }
      hstep₁ hstep₂
    refine ⟨hres.1, hres.2.1, ?_⟩
    rw [show (processBatchModel digestF cfg n data (pl :: rest) st)
        = processBatchModel digestF cfg n data rest
            { output := st.output ++ [processPipelineModel digestF cfg pl data],
              progress := st.progress + 1 / (n : ℚ),
              processed := st.processed + 1,
              progressHist := st.progressHist ++ [st.progress + 1 / (n : ℚ)] } from rfl]
    rw [hres.2.2]
    simp [List.length_cons]
    omega

theorem runBatchLoop_inv (digestF : ServiceConfig → Option NodeConfig → JVal → JVal)
    (cfg : Option NodeConfig) (n : Nat) (data : JVal) (suspendAt : Nat → Bool) :
    ∀ (batches : List (List (List ServiceConfig))) (i : Nat) (st : BatchState),
      st.progress = (st.processed : ℚ) / (n : ℚ) →
      st.progressHist
        = (List.range st.processed).map (fun t : Nat => ((t : ℚ) + 1) / (n : ℚ)) →
      ((runBatchLoop digestF cfg n data suspendAt batches i st).1.progress
          = ((runBatchLoop digestF cfg n data suspendAt batches i st).1.processed : ℚ) / (n : ℚ)
        ∧ (runBatchLoop digestF cfg n data suspendAt batches i st).1.progressHist
          = (List.range (runBatchLoop digestF cfg n data suspendAt batches i st).1.processed).map
              (fun t : Nat => ((t : ℚ) + 1) / (n : ℚ))
        ∧ (runBatchLoop digestF cfg n data suspendAt batches i st).1.processed
          ≤ st.processed + (batches.map List.length).sum) := by
  intro batches
  induction batches with
  | nil =>
    intro i st h₁ h₂
    exact ⟨h₁, h₂, by simp [runBatchLoop]⟩
  | cons b rest ih =>
    intro i st h₁ h₂
    have hb := processBatchModel_inv digestF cfg n data b st h₁ h₂
    by_cases hs : suspendAt i = true
    · have hred : runBatchLoop digestF cfg n data suspendAt (b :: rest) i st
          = (processBatchModel digestF cfg n data b st, true) := by
        simp [runBatchLoop, hs]
      rw [hred]
      exact ⟨hb.1, hb.2.1, by
        rw [hb.2.2]
        simp only [List.map_cons, List.sum_cons]
        omega⟩
    · have hred : runBatchLoop digestF cfg n data suspendAt (b :: rest) i st
          = runBatchLoop digestF cfg n data suspendAt rest (i + 1)
              (processBatchModel digestF cfg n data b st) := by
        simp [runBatchLoop, hs]
      rw [hred]
      have hr := ih (i + 1) (processBatchModel digestF cfg n data b st) hb.1 hb.2.1
      refine ⟨hr.1, hr.2.1, ?_⟩
      calc (runBatchLoop digestF cfg n data suspendAt rest (i + 1)
              (processBatchModel digestF cfg n data b st)).1.processed
          ≤ (processBatchModel digestF cfg n data b st).processed
              + (rest.map List.length).sum := hr.2.2
        _ = st.processed + (b.length + (rest.map List.length).sum) := by
              rw [hb.2.2]; omega
        _ = st.processed + ((b :: rest).map List.length).sum := by simp

theorem progressHist_chain_bound (n : Nat) :
    ∀ k : Nat,
      List.Chain' (· ≤ ·)
        ((0 : ℚ) :: (List.range k).map (fun t : Nat => ((t : ℚ) + 1) / (n : ℚ)))
      ∧ ((0 : ℚ) :: (List.range k).map (fun t : Nat => ((t : ℚ) + 1) / (n : ℚ))).getLast?
          = some ((k : ℚ) / (n : ℚ)) := by
  intro k
  induction k with
  | zero => exact ⟨List.chain'_singleton _, by simp⟩
  | succ k ih =>
    have hmono : (k : ℚ) / (n : ℚ) ≤ ((k : ℚ) + 1) / (n : ℚ) := by
      rcases Nat.eq_zero_or_pos n with h0 | hp
      · subst h0; simp
      · have hn : (0 : ℚ) < (n : ℚ) := by exact_mod_cast hp
        exact (div_le_div_iff_of_pos_right hn).mpr (by linarith)
    have hsplit : (0 : ℚ) :: (List.range (k + 1)).map (fun t : Nat => ((t : ℚ) + 1) / (n : ℚ))
        = ((0 : ℚ) :: (List.range k).map (fun t : Nat => ((t : ℚ) + 1) / (n : ℚ)))
            ++ [((k : ℚ) + 1) / (n : ℚ)] := by
      rw [List.range_succ, List.map_append]
      rfl
    constructor
    · rw [hsplit]
      refine List.chain'_append.mpr ⟨ih.1, List.chain'_singleton _, ?_⟩
      intro x hx y hy
      rw [ih.2] at hx
      simp only [Option.mem_def, Option.some.injEq] at hx
      simp only [List.head?_cons, Option.mem_def, Option.some.injEq] at hy
      subst hx
      subst hy
      exact hmono
    · rw [hsplit, List.getLast?_concat]
      push_cast
      rfl

/-- C4: within one (non-resumed) execution started at progress 0, the
history of progress values after each completed pipeline is
`[1/n, 2/n, ...]` with `n = len(pipelines)` — each completed pipeline
increments progress by exactly `1/len(pipelines)` — at most `n` pipelines
complete, the final progress is `processed/n`, progress and every
intermediate value lie in `[0, 1]`, and the sequence starting at the
initial 0 is monotonically non-decreasing; a freshly created node starts at
progress 0. -/
theorem node_progress_invariant (digestF : ServiceConfig → Option NodeConfig → JVal → JVal)
    (cfg : Option NodeConfig) (pipelines : List (List ServiceConfig))
    (suspendAt : Nat → Bool) (preResp data : JVal) :
    (executeNodeModel digestF cfg pipelines [] 0 none suspendAt preResp data).progressHist
      = (List.range (executeNodeModel digestF cfg pipelines [] 0 none suspendAt
          preResp data).processed).map
          (fun t : Nat => ((t : ℚ) + 1) / (pipelines.length : ℚ))
    ∧ (executeNodeModel digestF cfg pipelines [] 0 none suspendAt preResp data).processed
        ≤ pipelines.length
    ∧ (executeNodeModel digestF cfg pipelines [] 0 none suspendAt preResp data).progress
      = ((executeNodeModel digestF cfg pipelines [] 0 none suspendAt preResp data).processed : ℚ)
          / (pipelines.length : ℚ)
    ∧ (0 : ℚ) ≤ (executeNodeModel digestF cfg pipelines [] 0 none suspendAt preResp data).progress
    ∧ (executeNodeModel digestF cfg pipelines [] 0 none suspendAt preResp data).progress ≤ 1
    ∧ (∀ q ∈ (executeNodeModel digestF cfg pipelines [] 0 none suspendAt
        preResp data).progressHist, 0 ≤ q ∧ q ≤ 1)
    ∧ List.Chain' (· ≤ ·)
        ((0 : ℚ) :: (executeNodeModel digestF cfg pipelines [] 0 none suspendAt
          preResp data).progressHist)
    ∧ (∀ (st₀ : SupState) (cfg₀ : NodeConfig), ∃ nd,
        alGet (createNodeS st₀ cfg₀).1.nodes (createNodeS st₀ cfg₀).2 = some nd
        ∧ nd.progress = 0) := by
  have hinv := runBatchLoop_inv digestF cfg pipelines.length
    (if (match cfg with | some c => decide (0 < c.pre.length) | none => false)
      then mergePreT data preResp else data)
    suspendAt (chunksOf 3 pipelines) 0 ⟨[], 0, 0, []⟩ (by simp) (by simp)
  have hsum : ((chunksOf 3 pipelines).map List.length).sum = pipelines.length := by
    have h3 : (chunksOf 3 pipelines).flatten = pipelines := chunksOf_flatten 2 pipelines
    rw [← List.length_flatten, h3]
  have hproj :
      (executeNodeModel digestF cfg pipelines [] 0 none suspendAt preResp data).processed
        = (runBatchLoop digestF cfg pipelines.length
            (if (match cfg with | some c => decide (0 < c.pre.length) | none => false)
              then mergePreT data preResp else data)
            suspendAt (chunksOf 3 pipelines) 0 ⟨[], 0, 0, []⟩).1.processed
      ∧ (executeNodeModel digestF cfg pipelines [] 0 none suspendAt preResp data).progress
        = (runBatchLoop digestF cfg pipelines.length
            (if (match cfg with | some c => decide (0 < c.pre.length) | none => false)
              then mergePreT data preResp else data)
            suspendAt (chunksOf 3 pipelines) 0 ⟨[], 0, 0, []⟩).1.progress
      ∧ (executeNodeModel digestF cfg pipelines [] 0 none suspendAt preResp data).progressHist
        = (runBatchLoop digestF cfg pipelines.length
            (if (match cfg with | some c => decide (0 < c.pre.length) | none => false)
              then mergePreT data preResp else data)
            suspendAt (chunksOf 3 pipelines) 0 ⟨[], 0, 0, []⟩).1.progressHist := by
    simp only [executeNodeModel]
    rcases (runBatchLoop digestF cfg pipelines.length _ suspendAt
      (chunksOf 3 pipelines) 0 ⟨[], 0, 0, []⟩) with ⟨bst, susp⟩
    cases susp <;> exact ⟨rfl, rfl, rfl⟩
  have hproc : (executeNodeModel digestF cfg pipelines [] 0 none suspendAt
      preResp data).processed ≤ pipelines.length := by
    rw [hproj.1]
    calc _ ≤ 0 + ((chunksOf 3 pipelines).map List.length).sum := hinv.2.2
      _ = pipelines.length := by rw [hsum]; omega
  have hhist : (executeNodeModel digestF cfg pipelines [] 0 none suspendAt
      preResp data).progressHist
      = (List.range (executeNodeModel digestF cfg pipelines [] 0 none suspendAt
          preResp data).processed).map
          (fun t : Nat => ((t : ℚ) + 1) / (pipelines.length : ℚ)) := by
    rw [hproj.2.2, hproj.1]
    exact hinv.2.1
  have hprog : (executeNodeModel digestF cfg pipelines [] 0 none suspendAt
      preResp data).progress
      = ((executeNodeModel digestF cfg pipelines [] 0 none suspendAt
          preResp data).processed : ℚ) / (pipelines.length : ℚ) := by
    rw [hproj.2.1, hproj.1]
    exact hinv.1
  have hdivbound : ∀ m : Nat, m ≤ pipelines.length →
      (0 : ℚ) ≤ (m : ℚ) / (pipelines.length : ℚ)
      ∧ (m : ℚ) / (pipelines.length : ℚ) ≤ 1 := by
    intro m hm
    constructor
    · exact div_nonneg (by positivity) (by positivity)
    · rcases Nat.eq_zero_or_pos pipelines.length with h0 | hp
      · rw [h0] at hm
        interval_cases m
        simp
      · have hn : (0 : ℚ) < (pipelines.length : ℚ) := by exact_mod_cast hp
        rw [div_le_one hn]
        exact_mod_cast hm
  refine ⟨hhist, hproc, hprog, ?_, ?_, ?_, ?_, ?_⟩
  · rw [hprog]
    exact (hdivbound _ hproc).1
  · rw [hprog]
    exact (hdivbound _ hproc).2
  · intro q hq
    rw [hhist] at hq
    rcases List.mem_map.mp hq with ⟨t, ht, hqt⟩
    have htk := List.mem_range.mp ht
    have ht1 : t + 1 ≤ pipelines.length := by omega
    have hb := hdivbound (t + 1) ht1
    have hcast : ((t + 1 : Nat) : ℚ) / (pipelines.length : ℚ) = q := by
      rw [← hqt]
      push_cast
      rfl
    rw [← hcast]
    exact hb
  · rw [hhist]
    exact (progressHist_chain_bound pipelines.length _).1
  · intro st₀ cfg₀
    refine ⟨_, alGet_alSet_self _ _ _, rfl⟩

theorem truthyStr_some (s : String) (h : s ≠ "") : truthyStr (some s) = some s := by
  unfold truthyStr
  split
  · rename_i heq
    exact absurd (Option.some.inj heq) h
  · rfl

theorem updateNode_spec (st : SupState) (k : Nat) (f : SNode → SNode) :
    alGet (updateNode st k f).nodes k = (alGet st.nodes k).map f
    ∧ (∀ k₁, k₁ ≠ k → alGet (updateNode st k f).nodes k₁ = alGet st.nodes k₁)
    ∧ (updateNode st k f).fresh = st.fresh
    ∧ (updateNode st k f).chains = st.chains := by
  cases h : alGet st.nodes k with
  | none => simp [updateNode, h]
  | some n =>
    refine ⟨?_, ?_, ?_, ?_⟩
    · simp [updateNode, h, alGet_alSet_self]
    · intro k₁ hk₁
      simp [updateNode, h, alGet_alSet_ne _ _ _ _ hk₁]
    · simp [updateNode, h]
    · simp [updateNode, h]

theorem updateChainRel_spec (st : SupState) (cid : String) (f : ChainRelation → ChainRelation) :
    (updateChainRel st cid f).nodes = st.nodes
    ∧ (updateChainRel st cid f).fresh = st.fresh := by
  cases h : alGet st.chains cid <;> simp [updateChainRel, h]

theorem updateChainS_ok (st : SupState) (cfg : NodeConfig) (cid : String)
    (hcid : truthyStr cfg.chainId = some cid) :
    ∃ ch, updateChainS st [cfg] = ({ st with chains := ch }, .ok cid) := by
  cases hrel : alGet st.chains cid with
  | some rel =>
    refine ⟨alSet st.chains cid { rel with config := rel.config ++ [cfg] }, ?_⟩
    simp [updateChainS, hcid, hrel]
  | none =>
    refine ⟨alSet st.chains cid { config := [cfg] }, ?_⟩
    simp [updateChainS, hcid, hrel]

theorem setupNodeS_ok (st : SupState) (cfg : NodeConfig) (init : Bool) (cid : String)
    (hcid : truthyStr cfg.chainId = some cid)
    (hmon : (truthyStr cfg.monitoringHost).isSome) :
    ∃ st', setupNodeS st cfg init = (st', .ok st.fresh)
      ∧ st'.fresh = st.fresh + 1
      ∧ alGet st'.nodes st.fresh = some (setupNodeResult st.fresh cfg)
      ∧ (∀ k, k ≠ st.fresh → alGet st'.nodes k = alGet st.nodes k) := by
  obtain ⟨ch, hch⟩ := updateChainS_ok st cfg cid hcid
  obtain ⟨m, hm⟩ := Option.isSome_iff_exists.mp hmon
  cases hnext : cfg.nextTargetId with
  | none =>
    refine ⟨_, by rw [setupNodeS, hch]; simp only [createNodeS]; rw [hm, hnext], ?_, ?_, ?_⟩
    · simp [updateNode, alGet_alSet_self]
    · simp [updateNode, createNodeS, alGet_alSet_self, setupNodeResult, hnext]
    · intro k hk
      simp [updateNode, createNodeS, alGet_alSet_self, alGet_alSet_ne _ _ _ _ hk]
  | some tid =>
    refine ⟨_, by rw [setupNodeS, hch]; simp only [createNodeS]; rw [hm, hnext], ?_, ?_, ?_⟩
    · simp [updateNode, alGet_alSet_self]
    · simp [updateNode, createNodeS, alGet_alSet_self, setupNodeResult, hnext]
    · intro k hk
      simp [updateNode, createNodeS, alGet_alSet_self, alGet_alSet_ne _ _ _ _ hk]

theorem setupLocalsAux_ok (chainId : String) (hcid : chainId ≠ "") :
    ∀ (cfgs : List NodeConfig) (st : SupState) (prev : Nat),
      (∀ c ∈ cfgs, (truthyStr c.monitoringHost).isSome) →
      prev < st.fresh →
      ∃ st', setupLocalsAux chainId st prev cfgs
          = (st', .ok (List.range' st.fresh cfgs.length))
        ∧ st'.fresh = st.fresh + cfgs.length
        ∧ (∀ k, k < st.fresh → k ≠ prev → alGet st'.nodes k = alGet st.nodes k)
        ∧ (cfgs = [] → alGet st'.nodes prev = alGet st.nodes prev)
        ∧ (cfgs ≠ [] → alGet st'.nodes prev
            = (alGet st.nodes prev).map (fun n =>
                { n with nextNodeInfo := some ⟨.uuid st.fresh, .LOCAL, none⟩ }))
        ∧ (∀ j (hj : j < cfgs.length),
            alGet st'.nodes (st.fresh + j)
              = some (localLinkNode chainId (st.fresh + j) (cfgs.get ⟨j, hj⟩)
                  (if j + 1 < cfgs.length then some (st.fresh + j + 1) else none))) := by
  intro cfgs
  induction cfgs with
  | nil =>
    intro st prev hmon hprev
    refine ⟨st, rfl, by simp, fun k _ _ => rfl, fun _ => rfl,
      fun h => absurd rfl h, fun j hj => absurd hj (by simp)⟩
  | cons c rest ih =>
    intro st prev hmon hprev
    have hmonc : (truthyStr ({ c with chainId := some chainId } : NodeConfig).monitoringHost).isSome :=
      hmon c (List.mem_cons_self _ _)
    obtain ⟨stA, hAeq, hAfresh, hAget, hAframe⟩ :=
      setupNodeS_ok st { c with chainId := some chainId } true chainId
        (truthyStr_some chainId hcid) hmonc
    obtain ⟨hUget, hUframe, hUfresh, hUchains⟩ := updateNode_spec stA prev
      (fun n => { n with nextNodeInfo := some ⟨.uuid st.fresh, .LOCAL, none⟩ })
    have hfresh₂ : (updateNode stA prev
        (fun n => { n with nextNodeInfo := some ⟨.uuid st.fresh, .LOCAL, none⟩ })).fresh
        = st.fresh + 1 := by rw [hUfresh, hAfresh]
    have hmonr : ∀ x ∈ rest, (truthyStr x.monitoringHost).isSome :=
      fun x hx => hmon x (List.mem_cons_of_mem _ hx)
    obtain ⟨st₃, h3eq, h3fresh, h3frame, h3prevnil, h3prevcons, h3nodes⟩ :=
      ih (updateNode stA prev
        (fun n => { n with nextNodeInfo := some ⟨.uuid st.fresh, .LOCAL, none⟩ }))
        st.fresh hmonr (by rw [hfresh₂]; omega)
    rw [hfresh₂] at h3eq h3fresh h3frame h3prevcons h3nodes
    refine ⟨st₃, ?_, ?_, ?_, ?_, ?_, ?_⟩
    · simp only [setupLocalsAux, hAeq, h3eq]
      rfl
    · rw [h3fresh]
      simp only [List.length_cons]
      omega
    · intro k hk hkprev
      have hk₁ : k < st.fresh + 1 := by omega
      have hkA : k ≠ st.fresh := by omega
      rw [h3frame k hk₁ hkA, hUframe k hkprev, hAframe k hkA]
    · intro habs
      exact absurd habs (by simp)
    · intro _
      have hne : prev ≠ st.fresh := Nat.ne_of_lt hprev
      rw [h3frame prev (by omega) hne, hUget, hAframe prev hne]
    · intro j hj
      cases j with
      | zero =>
        have hne : st.fresh ≠ prev := (Nat.ne_of_lt hprev).symm
        cases rest with
        | nil =>
          have h0 := h3prevnil rfl
          rw [Nat.add_zero]
          rw [h0, hUframe st.fresh hne, hAget]
          simp [localLinkNode]
        | cons r rs =>
          have h0 := h3prevcons (by simp)
          rw [Nat.add_zero]
          rw [h0, hUframe st.fresh hne, hAget]
          rw [if_pos (by simp)]
          simp [localLinkNode]
      | succ j₁ =>
        have hj₁ : j₁ < rest.length := by
          simp only [List.length_cons] at hj
          omega
        have harith : st.fresh + (j₁ + 1) = st.fresh + 1 + j₁ := by omega
        rw [harith, h3nodes j₁ hj₁]
        have hgets : rest.get ⟨j₁, hj₁⟩ = (c :: rest).get ⟨j₁ + 1, hj⟩ := rfl
        rw [hgets]
        by_cases hlt : j₁ + 1 < rest.length
        · rw [if_pos hlt, if_pos (by simp only [List.length_cons]; omega)]
        · rw [if_neg hlt, if_neg (by simp only [List.length_cons]; omega)]

theorem annotateRemotes_length (l : List NodeConfig) :
    (annotateRemotes l).length = l.length := by
  induction l with
  | nil => rfl
  | cons c rest ih => simp [annotateRemotes, ih]

theorem annotateRemotes_get? :
    ∀ (l : List NodeConfig) (i : Nat),
      (annotateRemotes l).get? i = (l.get? i).map (fun c =>
        { c with
          nextTargetId := (truthyService ((l.get? (i + 1)).bind
              (fun n => n.services.head?))).map serviceTargetId,
          nextNodeResolver := (truthyService ((l.get? (i + 1)).bind
              (fun n => n.services.head?))).bind serviceResolver,
          nextMeta :=
            match (l.get? (i + 1)).bind (fun n => n.services.head?) with
            | some (.obj sc) => sc.meta
            | _ => none }) := by
  intro l
  induction l with
  | nil => intro i; simp [annotateRemotes]
  | cons c rest ih =>
    intro i
    cases i with
    | zero =>
      simp [annotateRemotes, List.get?_zero, List.head?_eq_getElem?]
    | succ i₁ =>
      simp only [annotateRemotes, List.get?_cons_succ]
      exact ih i₁

theorem range'_getLast : ∀ (n s : Nat) (h : List.range' s (n + 1) ≠ []),
    (List.range' s (n + 1)).getLast h = s + n := by
  intro n
  induction n with
  | zero => intro s h; rfl
  | succ n ih =>
    intro s h
    have hne : List.range' (s + 1) (n + 1) ≠ [] := by simp
    have hstep : (List.range' s (n + 1 + 1)).getLast h
        = (List.range' (s + 1) (n + 1)).getLast hne := List.getLast_cons hne
    rw [hstep, ih (s + 1) hne]
    omega

/-- C1: for a chain whose stored config has both local and remote entries,
`prepareChainDistribution` partitions the config by location, sets the
local configs up as linked nodes — node i points at node i+1 as LOCAL, the
last local node points at the first service of the first remote config as
REMOTE — and delivers, via `broadcastSetupCallback`, the remote configs
annotated by lookahead: entry i carries `nextTargetId`, `nextNodeResolver`
and `nextMeta` taken from the first service of remote config i+1,
undefined for the last entry. -/
theorem prepareChainDistribution_partitions_and_links
    (st : SupState) (chainId : String) (rel : ChainRelation)
    (c₀ : NodeConfig) (crest : List NodeConfig)
    (rc₀ : NodeConfig) (rrest : List NodeConfig)
    (s₀ : Service) (srest : List Service)
    (hchain : alGet st.chains chainId = some rel)
    (hcid : chainId ≠ "")
    (hloc : rel.config.filter (fun c => c.location = "local") = c₀ :: crest)
    (hrem : rel.config.filter (fun c => c.location = "remote") = rc₀ :: rrest)
    (hsvc : rc₀.services = s₀ :: srest)
    (hmon : ∀ c ∈ (c₀ :: crest), (truthyStr c.monitoringHost).isSome) :
    ∃ st',
      prepareChainDistributionS st chainId
        = (st', .ok (List.range' st.fresh (crest.length + 1),
            some (annotateRemotes (rc₀ :: rrest))))
      ∧ (∀ i, i + 1 < crest.length + 1 → ∃ nd,
          alGet st'.nodes (st.fresh + i) = some nd
          ∧ nd.nextNodeInfo = some ⟨.uuid (st.fresh + i + 1), .LOCAL, none⟩)
      ∧ (∃ ndLast, alGet st'.nodes (st.fresh + crest.length) = some ndLast
          ∧ ndLast.nextNodeInfo
            = some ⟨.target (serviceTargetId s₀), .REMOTE, serviceMeta s₀⟩)
      ∧ (annotateRemotes (rc₀ :: rrest)).length = rrest.length + 1
      ∧ (∀ i, i < rrest.length + 1 → ∃ a,
          (annotateRemotes (rc₀ :: rrest)).get? i = some a
          ∧ a.nextTargetId = (truthyService (((rc₀ :: rrest).get? (i + 1)).bind
              (fun n => n.services.head?))).map serviceTargetId
          ∧ a.nextNodeResolver = (truthyService (((rc₀ :: rrest).get? (i + 1)).bind
              (fun n => n.services.head?))).bind serviceResolver
          ∧ a.nextMeta = (match ((rc₀ :: rrest).get? (i + 1)).bind
              (fun n => n.services.head?) with
              | some (.obj sc) => sc.meta
              | _ => none))
      ∧ ((∀ c ∈ rel.config, c.location = "local" ∨ c.location = "remote") →
          List.Perm ((c₀ :: crest) ++ (rc₀ :: rrest)) rel.config) := by
  have hmonc₀ := hmon c₀ (List.mem_cons_self _ _)
  obtain ⟨stA, hAeq, hAfresh, hAget, hAframe⟩ :=
    setupNodeS_ok st { c₀ with chainId := some chainId } true chainId
      (truthyStr_some chainId hcid) hmonc₀
  obtain ⟨hCn, hCf⟩ := updateChainRel_spec stA chainId
    (fun r => { r with rootNodeId := some st.fresh })
  have hmonr : ∀ x ∈ crest, (truthyStr x.monitoringHost).isSome :=
    fun x hx => hmon x (List.mem_cons_of_mem _ hx)
  obtain ⟨st₃, h3eq, h3fresh, h3frame, h3prevnil, h3prevcons, h3nodes⟩ :=
    setupLocalsAux_ok chainId hcid crest
      (updateChainRel stA chainId (fun r => { r with rootNodeId := some st.fresh }))
      st.fresh hmonr (by rw [hCf, hAfresh]; omega)
  rw [hCf, hAfresh] at h3eq h3fresh h3frame h3prevcons h3nodes
  have hlastval : ∀ (h : (st.fresh :: List.range' (st.fresh + 1) crest.length) ≠ []),
      (st.fresh :: List.range' (st.fresh + 1) crest.length).getLast h
        = st.fresh + crest.length :=
    fun h => range'_getLast crest.length st.fresh h
  have hEq : prepareChainDistributionS st chainId
      = (updateNode st₃ (st.fresh + crest.length)
          (fun n => { n with nextNodeInfo := some (NextNodeInfo.mk (NodeRef.target (serviceTargetId s₀)) NodeType.REMOTE (serviceMeta s₀)) }),
        .ok (st.fresh :: List.range' (st.fresh + 1) crest.length,
          some (annotateRemotes (rc₀ :: rrest)))) := by
    simp only [prepareChainDistributionS, broadcastOf, lastLocalRemoteLink, hchain, hloc,
      hrem, hsvc, hAeq, h3eq, List.isEmpty_cons, hlastval]
    rfl
  obtain ⟨hRget, hRframe, hRfresh, hRchains⟩ := updateNode_spec st₃ (st.fresh + crest.length)
    (fun n => { n with nextNodeInfo := some (NextNodeInfo.mk (NodeRef.target (serviceTargetId s₀)) NodeType.REMOTE (serviceMeta s₀)) })
  refine ⟨_, by rw [hEq]; rfl, ?_, ?_, annotateRemotes_length _, ?_, ?_⟩
  · intro i hi
    have hine : st.fresh + i ≠ st.fresh + crest.length := by omega
    rw [hRframe _ hine]
    cases i with
    | zero =>
      have hcrest : crest ≠ [] := by
        intro habs
        rw [habs] at hi
        simp at hi
      have h0 := h3prevcons hcrest
      rw [hCn] at h0
      rw [Nat.add_zero, h0, hAget]
      exact ⟨_, rfl, rfl⟩
    | succ i₁ =>
      have hi₁ : i₁ < crest.length := by omega
      have harith : st.fresh + (i₁ + 1) = st.fresh + 1 + i₁ := by omega
      rw [harith, h3nodes i₁ hi₁, if_pos (by omega)]
      refine ⟨_, rfl, ?_⟩
      have : st.fresh + 1 + i₁ + 1 = st.fresh + (i₁ + 1) + 1 := by omega
      rw [this]
      rfl
  · rw [hRget]
    cases hc : crest with
    | nil =>
      subst hc
      have h0 := h3prevnil rfl
      rw [hCn] at h0
      simp only [List.length_nil, Nat.add_zero]
      rw [h0, hAget]
      exact ⟨_, rfl, rfl⟩
    | cons x xs =>
      subst hc
      have harith : st.fresh + (x :: xs).length = st.fresh + 1 + xs.length := by
        simp [List.length_cons]
        omega
      rw [harith]
      rw [h3nodes xs.length (by simp), if_neg (by simp)]
      exact ⟨_, rfl, rfl⟩
  · intro i hi
    have hlen : i < (rc₀ :: rrest).length := by simp; omega
    have hg := List.get?_eq_get hlen
    refine ⟨_, by rw [annotateRemotes_get?, hg]; rfl, rfl, rfl, rfl⟩
  · intro hall
    have hperm := List.filter_append_perm (fun c => decide (c.location = "local")) rel.config
    have hcongr : rel.config.filter (fun x => !(decide (x.location = "local")))
        = rel.config.filter (fun c => decide (c.location = "remote")) := by
      apply List.filter_congr
      intro x hx
      rcases hall x hx with hl | hr
      · rw [hl]; rfl
      · rw [hr]; rfl
    rw [hcongr] at hperm
    rw [hloc, hrem] at hperm
    exact hperm

/-- C1 witness: the mixed local-remote example chain — the local root node
0 is pointed at the remote target with its meta, and the annotated remote
configs are broadcast. -/
theorem prepareChainDistribution_links_witness :
    ∃ st',
      prepareChainDistributionS exampleChainState "CID"
        = (st', .ok ([0], some (annotateRemotes [exampleRemoteCfg])))
      ∧ ∃ ndLast, alGet st'.nodes 0 = some ndLast
          ∧ ndLast.nextNodeInfo = some (NextNodeInfo.mk (NodeRef.target "http://h9/svc")
              NodeType.REMOTE (some { resolver := some "http://h9/" })) := by
  obtain ⟨st', h1, h2, h3, h4, h5, h6⟩ :=
    prepareChainDistribution_partitions_and_links
      exampleChainState "CID" { config := [exampleLocalCfg, exampleRemoteCfg] }
      exampleLocalCfg [] exampleRemoteCfg []
      (Service.obj { targetId := "http://h9/svc", meta := some { resolver := some "http://h9/" } }) []
      rfl (by decide) (by decide) (by decide) rfl (by decide)
  exact ⟨st', h1, h3⟩

theorem NodesWF_set (st : SupState) (k : Nat) (n : SNode) (hid : n.id = k)
    (hk : k < st.fresh) (h : NodesWF st) :
    NodesWF { st with nodes := alSet st.nodes k n } := by
  intro p hp
  rcases mem_of_mem_alSet _ _ _ _ hp with h₁ | h₁
  · subst h₁
    exact ⟨hid, hk⟩
  · exact h p h₁

theorem WF_createNodeS (st : SupState) (cfg : NodeConfig) (h : NodesWF st) :
    NodesWF (createNodeS st cfg).1 := by
  intro p hp
  rcases mem_of_mem_alSet _ _ _ _ hp with h₁ | h₁
  · subst h₁
    exact ⟨rfl, Nat.lt_succ_self _⟩
  · obtain ⟨hi, hk⟩ := h p h₁
    exact ⟨hi, Nat.lt_succ_of_lt hk⟩

theorem WF_updateNode (st : SupState) (k : Nat) (f : SNode → SNode)
    (hf : ∀ n, (f n).id = n.id) (h : NodesWF st) : NodesWF (updateNode st k f) := by
  unfold updateNode
  split
  · rename_i n hn
    intro p hp
    rcases mem_of_mem_alSet _ _ _ _ hp with h₁ | h₁
    · subst h₁
      obtain ⟨hi, hk⟩ := h _ (alGet_mem _ _ _ hn)
      exact ⟨(hf n).trans hi, hk⟩
    · exact h p h₁
  · exact h

theorem WF_deleteNodeS (st : SupState) (k : Nat) (h : NodesWF st) :
    NodesWF (deleteNodeS st k) := by
  unfold deleteNodeS
  split
  · intro p hp
    exact h p (mem_of_mem_alDel _ _ _ hp)
  · exact h

theorem WF_updateChainS (st : SupState) (cfg : List NodeConfig) (h : NodesWF st) :
    NodesWF (updateChainS st cfg).1 := by
  unfold updateChainS
  split
  · exact h
  · split
    · exact h
    · split
      · exact h
      · exact h

theorem WF_updateChainRel (st : SupState) (cid : String) (f : ChainRelation → ChainRelation)
    (h : NodesWF st) : NodesWF (updateChainRel st cid f) := by
  unfold updateChainRel
  split
  · exact h
  · exact h

theorem WF_setupNodeS (st : SupState) (cfg : NodeConfig) (init : Bool) (h : NodesWF st) :
    NodesWF (setupNodeS st cfg init).1 := by
  unfold setupNodeS
  split
  · rename_i st₁ e heq
    have := WF_updateChainS st [cfg] h
    rw [heq] at this
    exact this
  · rename_i st₁ c heq
    have h₁ : NodesWF st₁ := by
      have := WF_updateChainS st [cfg] h
      rw [heq] at this
      exact this
    split
    · exact WF_createNodeS st₁ cfg h₁
    · split
      · exact WF_updateNode _ _ _ (fun n => rfl)
          (WF_updateNode _ _ _ (fun n => rfl) (WF_createNodeS st₁ cfg h₁))
      · exact WF_updateNode _ _ _ (fun n => rfl) (WF_createNodeS st₁ cfg h₁)

theorem createChainS_nodes (st : SupState) (cfg : List NodeConfig) :
    (createChainS st cfg).1.nodes = st.nodes ∧ (createChainS st cfg).1.fresh = st.fresh := by
  simp only [createChainS]
  rcases hpr : (createChainPure st.uid st.time (st.randQ.headD "") cfg).2 with e | upd <;>
    exact ⟨rfl, rfl⟩

theorem WF_createChainS (st : SupState) (cfg : List NodeConfig) (h : NodesWF st) :
    NodesWF (createChainS st cfg).1 := by
  obtain ⟨hn, hf⟩ := createChainS_nodes st cfg
  intro p hp
  rw [hn] at hp
  rw [hf]
  exact h p hp

theorem WF_setupLocalsAux (chainId : String) :
    ∀ (cfgs : List NodeConfig) (st : SupState) (prev : Nat), NodesWF st →
      NodesWF (setupLocalsAux chainId st prev cfgs).1 := by
  intro cfgs
  induction cfgs with
  | nil => intro st prev h; exact h
  | cons c rest ih =>
    intro st prev h
    unfold setupLocalsAux
    split
    · rename_i st₁ e heq
      have := WF_setupNodeS st { c with chainId := some chainId } true h
      rw [heq] at this
      exact this
    · rename_i st₁ cur heq
      have h₁ : NodesWF st₁ := by
        have := WF_setupNodeS st { c with chainId := some chainId } true h
        rw [heq] at this
        exact this
      have h₂ := WF_updateNode st₁ prev
        (fun n => { n with nextNodeInfo := some ⟨.uuid cur, .LOCAL, none⟩ })
        (fun n => rfl) h₁
      have h₃ := ih (updateNode st₁ prev
        (fun n => { n with nextNodeInfo := some ⟨.uuid cur, .LOCAL, none⟩ })) cur h₂
      rcases h₄ : setupLocalsAux chainId (updateNode st₁ prev
        (fun n => { n with nextNodeInfo := some ⟨.uuid cur, .LOCAL, none⟩ })) cur rest
        with ⟨st₃, res⟩
      rw [h₄] at h₃
      simp only [h₄]
      cases res with
      | error e => exact h₃
      | ok ids => exact h₃

theorem WF_lastLocalRemoteLink (st₃ : SupState) (lastId : Nat)
    (remoteConfigs : List NodeConfig) (h : NodesWF st₃) :
    NodesWF (lastLocalRemoteLink st₃ lastId remoteConfigs) := by
  unfold lastLocalRemoteLink
  split
  · exact h
  · split
    · exact h
    · exact WF_updateNode _ _ _ (fun n => rfl) h

theorem WF_prepareChainDistributionS (st : SupState) (chainId : String) (h : NodesWF st) :
    NodesWF (prepareChainDistributionS st chainId).1 := by
  unfold prepareChainDistributionS
  split
  · exact h
  · split
    · exact h
    · rename_i chain c₀ restLocals heq
      split
      · rename_i st₁ e heq₁
        have := WF_setupNodeS st { c₀ with chainId := some chainId } true h
        rw [heq₁] at this
        exact this
      · rename_i st₁ rootId heq₁
        have h₁ : NodesWF st₁ := by
          have := WF_setupNodeS st { c₀ with chainId := some chainId } true h
          rw [heq₁] at this
          exact this
        have h₂ := WF_updateChainRel st₁ chainId
          (fun r => { r with rootNodeId := some rootId }) h₁
        have h₃ := WF_setupLocalsAux chainId restLocals
          (updateChainRel st₁ chainId (fun r => { r with rootNodeId := some rootId }))
          rootId h₂
        split
        · rename_i st₃ e heq₃
          rw [heq₃] at h₃
          exact h₃
        · rename_i st₃ ids heq₃
          rw [heq₃] at h₃
          exact WF_lastLocalRemoteLink st₃ _ _ h₃

theorem WF_deployChainS (st : SupState) (config : Option (List NodeConfig))
    (data : Option JVal) (pid : Option String) (h : NodesWF st) :
    NodesWF (deployChainS st config data pid).1 := by
  unfold deployChainS
  split
  · exact h
  · rename_i cfg
    split
    · rename_i st₁ e heq
      have := WF_createChainS st cfg h
      rw [heq] at this
      exact this
    · rename_i st₁ chainId heq
      have h₁ : NodesWF st₁ := by
        have := WF_createChainS st cfg h
        rw [heq] at this
        exact this
      split
      · rename_i st₂ e heq₂
        have := WF_prepareChainDistributionS st₁ chainId h₁
        rw [heq₂] at this
        exact this
      · rename_i st₂ v heq₂
        have h₂ : NodesWF st₂ := by
          have := WF_prepareChainDistributionS st₁ chainId h₁
          rw [heq₂] at this
          exact this
        have h₃ := WF_updateChainRel st₂ chainId (fun r => { r with dataRef := data }) h₂
        split
        · exact h₃
        · exact h₃

theorem WF_handOffH (next : SupState → SupervisorPayload → SupState) (st : SupState)
    (node : SNode) (data : Option JVal)
    (hnext : ∀ s q, NodesWF s → NodesWF (next s q)) (h : NodesWF st) :
    NodesWF (handOffH next st node data) := by
  unfold handOffH
  split
  · split
    · exact hnext _ _ h
    · exact h
  · exact h

theorem WF_moveToNextNodeH (next : SupState → SupervisorPayload → SupState) (st : SupState)
    (nodeId : Nat) (data : Option JVal)
    (hnext : ∀ s q, NodesWF s → NodesWF (next s q)) (h : NodesWF st) :
    NodesWF (moveToNextNodeH next st nodeId data).1 := by
  unfold moveToNextNodeH
  split
  · exact h
  · rename_i node hn
    have h₁ := WF_handOffH next st node data hnext h
    split
    · exact h₁
    · exact hnext _ _ h₁
    · exact h₁

theorem WF_applyExecOutcome (next : SupState → SupervisorPayload → SupState) (st : SupState)
    (id : Nat) (node₁ : SNode) (term : Option (List JVal))
    (hid : node₁.id = id) (hk : id < st.fresh)
    (hnext : ∀ s q, NodesWF s → NodesWF (next s q)) (h : NodesWF st) :
    NodesWF (applyExecOutcome next st id node₁ term) := by
  unfold applyExecOutcome
  have h₁ := NodesWF_set st id node₁ hid hk h
  split
  · exact WF_moveToNextNodeH next _ id _ hnext h₁
  · exact h₁

theorem WF_executeH (digestF : ServiceConfig → Option NodeConfig → JVal → JVal)
    (preResp : JVal) (next : SupState → SupervisorPayload → SupState) (st : SupState)
    (id : Nat) (node : SNode) (data : Option JVal)
    (hnode : alGet st.nodes id = some node)
    (hnext : ∀ s q, NodesWF s → NodesWF (next s q)) (h : NodesWF st) :
    NodesWF (executeH digestF preResp next st id node data) := by
  obtain ⟨hid, hk⟩ := h _ (alGet_mem _ _ _ hnode)
  exact WF_applyExecOutcome next st id _ _ hid hk hnext h

theorem WF_runNodeH (digestF : ServiceConfig → Option NodeConfig → JVal → JVal)
    (preResp : JVal) (next : SupState → SupervisorPayload → SupState) (st : SupState)
    (id : Nat) (data : Option JVal)
    (hnext : ∀ s q, NodesWF s → NodesWF (next s q)) (h : NodesWF st) :
    NodesWF (runNodeH digestF preResp next st id data) := by
  unfold runNodeH
  split
  · exact h
  · rename_i node hn
    exact WF_executeH digestF preResp next st id node data hn hnext h

theorem WF_startChainH (digestF : ServiceConfig → Option NodeConfig → JVal → JVal)
    (preResp : JVal) (next : SupState → SupervisorPayload → SupState) (st : SupState)
    (chainId : String) (data : Option JVal)
    (hnext : ∀ s q, NodesWF s → NodesWF (next s q)) (h : NodesWF st) :
    NodesWF (startChainH digestF preResp next st chainId data) := by
  unfold startChainH
  split
  · exact h
  · split
    · exact h
    · split
      · exact h
      · exact WF_runNodeH digestF preResp next st _ data hnext h

theorem WF_startPendingChainH (digestF : ServiceConfig → Option NodeConfig → JVal → JVal)
    (preResp : JVal) (next : SupState → SupervisorPayload → SupState) (st : SupState)
    (chainId : String)
    (hnext : ∀ s q, NodesWF s → NodesWF (next s q)) (h : NodesWF st) :
    NodesWF (startPendingChainH digestF preResp next st chainId) := by
  unfold startPendingChainH
  split
  · exact WF_startChainH digestF preResp next st chainId none hnext h
  · split
    · exact WF_startChainH digestF preResp next st chainId none hnext h
    · split
      · exact WF_startChainH digestF preResp next st chainId _ hnext h
      · exact WF_startChainH digestF preResp next st chainId _ hnext h

theorem WF_handleRequestF (digestF : ServiceConfig → Option NodeConfig → JVal → JVal)
    (preResp : JVal) :
    ∀ (fuel : Nat) (st : SupState) (p : SupervisorPayload), NodesWF st →
      NodesWF (handleRequestF digestF preResp fuel st p) := by
  intro fuel
  induction fuel with
  | zero => intro st p h; exact h
  | succ fuel ih =>
    intro st p h
    have hnext : ∀ s q, NodesWF s → NodesWF (handleRequestF digestF preResp fuel s q) :=
      fun s q hs => ih s q hs
    cases p with
    | nodeSetup cfg => exact WF_setupNodeS st cfg false h
    | nodeCreate params => exact WF_createNodeS st params h
    | nodeDelete id => exact WF_deleteNodeS st id h
    | nodeRun id data => exact WF_runNodeH digestF preResp _ st id data hnext h
    | nodeSendData id => exact h
    | chainPrepare id => exact WF_prepareChainDistributionS st id h
    | chainStart id data => exact WF_startChainH digestF preResp _ st id data hnext h
    | chainStartPendingOccurrence id =>
      exact WF_startPendingChainH digestF preResp _ st id hnext h
    | chainDeploy config data => exact WF_deployChainS st (some config) data none h
    | unknownSignal => exact h

/-- C10: for every supervisor state reachable by any sequence of
`handleRequest` operations (from the initial empty supervisor, for any
cascade fuel), every key k of the nodes map satisfies
`nodes.get(k).getId() == k`; moreover `createNode` inserts the node under
its own freshly issued UUID, and `deleteNode` leaves every other binding
unchanged. -/
theorem handleRequest_nodes_key_id_invariant
    (digestF : ServiceConfig → Option NodeConfig → JVal → JVal) (preResp : JVal)
    (fuel : Nat) (ps : List SupervisorPayload) :
    (∀ k n, alGet (ps.foldl (handleRequestF digestF preResp fuel)
        ({} : SupState)).nodes k = some n → n.id = k)
    ∧ (∀ (st : SupState) (cfg : NodeConfig), ∃ nd,
        alGet (createNodeS st cfg).1.nodes (createNodeS st cfg).2 = some nd
        ∧ nd.id = (createNodeS st cfg).2)
    ∧ (∀ (st : SupState) (idd k : Nat), k ≠ idd →
        alGet (deleteNodeS st idd).nodes k = alGet st.nodes k) := by
  have hfold : ∀ (l : List SupervisorPayload) (st : SupState), NodesWF st →
      NodesWF (l.foldl (handleRequestF digestF preResp fuel) st) := by
    intro l
    induction l with
    | nil => intro st h; exact h
    | cons q rest ih =>
      intro st h
      exact ih _ (WF_handleRequestF digestF preResp fuel st q h)
  have hWF := hfold ps {} (fun p hp => absurd hp (by simp))
  refine ⟨?_, ?_, ?_⟩
  · intro k n hget
    exact (hWF _ (alGet_mem _ _ _ hget)).1
  · intro st cfg
    exact ⟨_, alGet_alSet_self _ _ _, rfl⟩
  · intro st idd k hk
    unfold deleteNodeS
    split
    · exact alGet_alDel_ne _ _ _ hk
    · rfl

/-- C10 witness: one `NODE_CREATE` against the empty supervisor — the node
stored under key 0 carries id 0. -/
theorem handleRequest_nodes_key_id_witness :
    ∃ nd, alGet (([SupervisorPayload.nodeCreate {}].foldl
        (handleRequestF (fun _ _ d => d) JVal.null 1) {}).nodes) 0 = some nd
      ∧ nd.id = 0 := by
  have h := handleRequest_nodes_key_id_invariant (fun _ _ d => d) JVal.null 1
    [SupervisorPayload.nodeCreate {}]
  refine ⟨{ id := 0, config := some {}, signalQueue := [] }, rfl, ?_⟩
  exact h.1 0 { id := 0, config := some {}, signalQueue := [] } rfl

/-- C4 witness: four pipelines, no suspension — progress history is
`[1/4, 1/2, 3/4, 1]`, 4 pipelines processed, final progress 1. -/
theorem node_progress_invariant_witness :
    (executeNodeModel (fun _ _ d => d) none [[], [], [], []] [] 0 none
        (fun _ => false) .null .null).processed = 4
    ∧ (executeNodeModel (fun _ _ d => d) none [[], [], [], []] [] 0 none
        (fun _ => false) .null .null).progress
      = ((4 : ℚ)) / ((4 : ℚ))
    ∧ (0 : ℚ) ≤ (executeNodeModel (fun _ _ d => d) none [[], [], [], []] [] 0 none
        (fun _ => false) .null .null).progress := by
  have h := node_progress_invariant (fun _ _ d => d) none [[], [], [], []]
    (fun _ => false) .null .null
  have hp : (executeNodeModel (fun _ _ d => d) none [[], [], [], []] [] 0 none
      (fun _ => false) .null .null).processed = 4 := by rfl
  refine ⟨hp, ?_, h.2.2.2.1⟩
  have := h.2.2.1
  rw [hp] at this
  simpa using this

end DPCP
